import Mathlib

/-!
Verification of the canonicalization + reconciliation engine of the
demo-process-observability repository.

The Python sources are shallowly embedded as executable Lean definitions:
  - `src/demo/catalog/normalize.py` and `src/demo/catalog/canonicalize.py`
    (text normalization, client canonicalization, step matching),
  - `src/demo/catalog/loader.py` (flat-spec compilation and the unified
    catalog merge),
  - `src/demo/pipeline/stage3_postprocess.py` (instance enrichment:
    steps state and health),
  - `src/demo/pipeline/reconciliation.py` (workflow definition lookups,
    positional inference, evidence merging, timestamp merging, and the
    per-instance reconciliation loop).

Python strings are modelled as Lean `String` with character-level
operations restricted to the ASCII behaviour of the library calls used
by the sources.  Python `dict`s (insertion ordered) are association
lists; mutable workflow records shared between the store list and the
match indices are modelled by indices into an `Array`.  Standard-library
functions that are not part of the repository (`datetime.fromisoformat`,
`difflib.SequenceMatcher.ratio`, `hashlib.sha1`) are passed in as
function parameters, so every theorem quantifies over them; concrete
instantiations are only used in closed witnesses and counterexamples.
-/

namespace Demo

/-! ### Python string primitives -/

/-- Python whitespace class used by `str.split`, `str.strip` and the
regex `\s` (ASCII range): space, tab, newline, carriage return,
vertical tab, form feed. -/
def pyIsSpace (c : Char) : Bool :=
  c = ' ' || c = '\t' || c = '\n' || c = '\r' || c = '\x0b' || c = '\x0c'

/-- `str.strip()` on a character list. -/
def pyStripChars (l : List Char) : List Char :=
  ((l.dropWhile pyIsSpace).reverse.dropWhile pyIsSpace).reverse

/-- Helper for `str.split()`: accumulates the current word (reversed). -/
def pySplitGo : List Char → List Char → List (List Char)
  | [], cur => if cur.isEmpty then [] else [cur.reverse]
  | c :: rest, cur =>
    if pyIsSpace c then
      if cur.isEmpty then pySplitGo rest [] else cur.reverse :: pySplitGo rest []
    else
      pySplitGo rest (c :: cur)

/-- `str.split()` with no argument: split on whitespace runs, dropping
empty fields. -/
def pySplitChars (l : List Char) : List (List Char) :=
  pySplitGo l []

/-- `" ".join(words)` on character lists. -/
def joinSpace (ws : List (List Char)) : List Char :=
  (ws.intersperse [' ']).flatten

/-- `re.sub(r"\s+", " ", s)`: every maximal whitespace run becomes one
space.  The boolean records whether the previous character was part of a
whitespace run. -/
def collapseWs : List Char → Bool → List Char
  | [], _ => []
  | c :: rest, prevSpace =>
    if pyIsSpace c then
      if prevSpace then collapseWs rest true else ' ' :: collapseWs rest true
    else
      c :: collapseWs rest false

/-- `string.punctuation` membership (ASCII codes 33-47, 58-64, 91-96,
123-126). -/
def isPyPunct (c : Char) : Bool :=
  (33 ≤ c.toNat && c.toNat ≤ 47) || (58 ≤ c.toNat && c.toNat ≤ 64) ||
  (91 ≤ c.toNat && c.toNat ≤ 96) || (123 ≤ c.toNat && c.toNat ≤ 126)

/-- Characters translated to space by `canonicalize.py`'s `_PUNCT_TABLE`
(the characters of the literal containing comma, period, semicolon,
colon, parentheses, square and curly brackets, angle brackets, slash,
backslash and pipe), given by their ASCII codes. -/
def isTokPunct (c : Char) : Bool :=
  c.toNat ∈ [44, 46, 59, 58, 40, 41, 91, 93, 123, 125, 60, 62, 47, 92, 124]

/-- `norm_text` from `catalog/canonicalize.py`:
`" ".join(str(s).strip().split()).lower()` (with `None` mapped to `""`
by the guard). -/
def normText (s : String) : String :=
  ⟨(joinSpace (pySplitChars (pyStripChars s.data))).map Char.toLower⟩

/-- `norm_text` applied to an optional value (`None` yields `""`). -/
def normTextOpt (o : Option String) : String :=
  match o with
  | none => ""
  | some s => normText s

/-- `norm_tokenish` from `catalog/canonicalize.py`: translate the token
punctuation table to spaces, collapse whitespace runs, strip, lower. -/
def normTokenish (s : String) : String :=
  ⟨(pyStripChars (collapseWs (s.data.map fun c => if isTokPunct c then ' ' else c) false)).map
      Char.toLower⟩

/-- `normalize_text` from `catalog/normalize.py`: lowercase, replace
`_`/`-` with spaces, translate all ASCII punctuation to spaces, collapse
whitespace runs, strip.  `None` yields `""` via `normalizeTextOpt`. -/
def normalizeText (s : String) : String :=
  ⟨pyStripChars
      (collapseWs
        ((s.data.map Char.toLower).map fun c =>
          if c = '_' || c = '-' then ' '
          else if isPyPunct c then ' ' else c)
        false)⟩

/-- `normalize_text` applied to an optional value. -/
def normalizeTextOpt (o : Option String) : String :=
  match o with
  | none => ""
  | some s => normalizeText s

/-- `_norm_text` from `pipeline/reconciliation.py`:
`" ".join(str(value).replace("-", " ").replace("_", " ").split()).lower()`
with falsy input (`None` or `""`) mapped to `""`. -/
def reconNormText (o : Option String) : String :=
  match o with
  | none => ""
  | some v =>
    if v = "" then ""
    else
      ⟨(joinSpace
            (pySplitChars (v.data.map fun c => if c = '-' || c = '_' then ' ' else c))).map
          Char.toLower⟩

/-- Prefix test on character lists. -/
def isPrefixChars : List Char → List Char → Bool
  | [], _ => true
  | _ :: _, [] => false
  | a :: as, b :: bs => a = b && isPrefixChars as bs

/-- Contiguous substring test on character lists. -/
def isInfixChars (needle : List Char) : List Char → Bool
  | [] => needle.isEmpty
  | c :: rest => isPrefixChars needle (c :: rest) || isInfixChars needle rest

/-- Python's `needle in hay` for strings: contiguous substring test
(the empty needle is contained in everything). -/
def pyIn (needle hay : String) : Bool :=
  isInfixChars needle.data hay.data

/-- Python truthiness of an optional string (`None` and `""` are falsy). -/
def optTruthy : Option String → Bool
  | none => false
  | some s => s ≠ ""

/-- Python `a or b` on optional strings. -/
def pyOrS (a b : Option String) : Option String :=
  if optTruthy a then a else b

/-- Python `a or d` where `d` is a non-empty string literal default. -/
def pyOrD (a : Option String) (d : String) : String :=
  match a with
  | some s => if s = "" then d else s
  | none => d

/-- `str.strip()` on a whole string. -/
def pyStrip (s : String) : String :=
  ⟨pyStripChars s.data⟩

/-- `str.lower()` (ASCII). -/
def pyLower (s : String) : String :=
  ⟨s.data.map Char.toLower⟩

/-! ### Association lists (Python dicts, insertion ordered) -/

/-- First binding of `k`, mirroring Python dict lookup. -/
def alookup {κ α : Type} [BEq κ] (l : List (κ × α)) (k : κ) : Option α :=
  (l.find? fun p => p.1 == k).map (·.2)

/-- `d[k] = v`: replace the binding in place, or append a new one. -/
def aset {κ α : Type} [BEq κ] (l : List (κ × α)) (k : κ) (v : α) : List (κ × α) :=
  if (l.find? fun p => p.1 == k).isSome then
    l.map fun p => if p.1 == k then (k, v) else p
  else
    l ++ [(k, v)]

/-- `Counter[k] += 1`. -/
def aincr (l : List (String × Nat)) (k : String) : List (String × Nat) :=
  match alookup l k with
  | some n => aset l k (n + 1)
  | none => l ++ [(k, 1)]

/-- `_unique` from `catalog/canonicalize.py`: deduplicate preserving
first occurrence, with `seen` accumulated. -/
def uniqueGo (seen : List String) : List String → List String
  | [] => []
  | v :: rest =>
    if v ∈ seen then uniqueGo seen rest else v :: uniqueGo (v :: seen) rest

/-- `_unique(values)`. -/
def uniqueList (l : List String) : List String :=
  uniqueGo [] l

/-! ### Evidence-id merging and timestamp merging (`reconciliation.py`) -/

/-- Loop of `_merge_evidence_ids`: walk the concatenated id list,
skipping falsy (empty) and already-seen ids; stop as soon as the merged
list has reached `maxIds` entries.  The `seen` set of the source is
exactly the set of elements of `merged`. -/
def mergeGo (merged : List String) (maxIds : Nat) : List String → List String
  | [] => merged
  | mid :: rest =>
    if mid = "" || merged.contains mid then
      mergeGo merged maxIds rest
    else if maxIds ≤ (merged ++ [mid]).length then merged ++ [mid]
    else mergeGo (merged ++ [mid]) maxIds rest

/-- `_merge_evidence_ids(existing, incoming, max_ids)`. -/
def mergeEvidenceIds (existing incoming : List String) (maxIds : Nat) : List String :=
  mergeGo [] maxIds (existing ++ incoming)

/-- `_parse_iso` from `reconciliation.py`, parameterized by `fromIso`,
the model of Python's `datetime.fromisoformat` composed with the
naive-to-UTC defaulting (both outside this repository's source), mapping
an ISO string to epoch seconds when parsable.  Falsy input parses to
`none`; a trailing `"Z"` is first replaced by `"+00:00"`
(`ts[:-1] + "+00:00"`). -/
def parseIsoRecon (fromIso : String → Option ℚ) (ts : Option String) : Option ℚ :=
  match ts with
  | none => none
  | some t =>
    if t = "" then none
    else if t.data ≠ [] ∧ t.data.getLast? = some 'Z' then
      fromIso ⟨t.data.dropLast ++ "+00:00".data⟩
    else
      fromIso t

/-- `_choose_latest_ts(existing, incoming)`: keep the later of the two
ISO timestamps, with string fallback to the incoming one when either
side fails to parse. -/
def chooseLatestTs (fromIso : String → Option ℚ) (existing incoming : Option String) :
    Option String :=
  if ¬ optTruthy incoming then existing
  else if ¬ optTruthy existing then incoming
  else
    match parseIsoRecon fromIso existing, parseIsoRecon fromIso incoming with
    | some ex, some inc => if ex ≤ inc then incoming else existing
    | _, _ => incoming

/-! ### Catalog data model (`catalog/types.py` and the spec's §3) -/

/-- `HealthSpec` dataclass from `catalog/types.py`. -/
structure HealthSpec where
  at_risk_after_days : Int
  overdue_after_days : Int
deriving DecidableEq, Repr

/-- `CatalogProcess` dataclass from `catalog/types.py`.  `step_aliases`
is an insertion-ordered mapping from step id to alias list. -/
structure CatalogProcess where
  process_id : String
  display_name : String
  owner : Option String := none
  steps : List String
  process_aliases : List String := []
  step_aliases : List (String × List String) := []
  health : HealthSpec := ⟨7, 14⟩
  phases : Option (List String) := none
  step_to_phase : Option (List (String × String)) := none
deriving DecidableEq, Repr

/-- `ProcessCatalog` dataclass: insertion-ordered mapping
process id → `CatalogProcess`. -/
structure ProcessCatalog where
  processes : List (String × CatalogProcess)
deriving DecidableEq, Repr

/-- Modelled from the spec: the client record of `catalog/models.py`
(that file is imported by `catalog/canonicalize.py` but absent from the
sources); §3 gives client records as `{name, aliases: set}` and
`canonicalize_client` reads exactly `c.name` and `c.aliases`. -/
structure ClientEntry where
  name : String
  aliases : List String := []
deriving DecidableEq, Repr

/-- Modelled from the spec: `ClientsCatalog` from `catalog/models.py`
(absent from the sources); `canonicalize_client` iterates
`clients_catalog.clients`. -/
structure ClientsCatalog where
  clients : List ClientEntry
deriving DecidableEq, Repr

/-! ### Client canonicalization (`catalog/canonicalize.py`) -/

/-- Rule 3 of `canonicalize_client`: the first token among
`[c.name] + c.aliases` whose `norm_text` form is a substring of the
normalized raw (or vice versa) makes the client a candidate (the inner
loop breaks at the first hit). -/
def clientSubstrHit (rawNorm : String) (c : ClientEntry) : Bool :=
  (c.name :: c.aliases).any fun token =>
    let tn := normText token
    pyIn tn rawNorm || pyIn rawNorm tn

/-- Rule 4 of `canonicalize_client`: tokenized containment after
removing punctuation; only non-empty tokenized forms participate. -/
def clientTokHit (rawTok : String) (c : ClientEntry) : Bool :=
  ((normTokenish c.name :: c.aliases.map normTokenish).filter fun t => t ≠ "").any
    fun t => pyIn t rawTok || pyIn rawTok t

/-- Fallback of `canonicalize_client`: title-case the normalized raw
text (`w.capitalize()` uppercases the first character and lowercases
the rest; the input is already lowercase). -/
def titleCaseNorm (rawNorm : String) : String :=
  ⟨joinSpace ((pySplitChars rawNorm.data).map fun w =>
      match w with
      | [] => []
      | c :: rest => c.toUpper :: rest.map Char.toLower)⟩

/-- `canonicalize_client(client_raw, clients_catalog)` from
`catalog/canonicalize.py`: exact name match, exact alias match, unique
space-collapsed substring containment, unique tokenized containment,
then the title-cased fallback.  `None` input yields `None`. -/
def canonicalizeClient (clientRaw : Option String) (catalog : ClientsCatalog) :
    Option String :=
  match clientRaw with
  | none => none
  | some raw =>
    let rawNorm := normText raw
    let rawTok := normTokenish raw
    match catalog.clients.find? fun c => rawNorm == normText c.name with
    | some c => some c.name
    | none =>
      match catalog.clients.find? fun c => c.aliases.any fun a => rawNorm == normText a with
      | some c => some c.name
      | none =>
        let candidates :=
          uniqueList ((catalog.clients.filter (clientSubstrHit rawNorm)).map (·.name))
        match candidates with
        | [only] => some only
        | _ =>
          let tokHits :=
            uniqueList ((catalog.clients.filter (clientTokHit rawTok)).map (·.name))
          match tokHits with
          | [only] => some only
          | _ => some (titleCaseNorm rawNorm)

/-! ### Step matching (`catalog/canonicalize.py`, `match_step`) -/

/-- Detailed result record of `match_step(..., return_details=True)`.
The first two guard paths of the source omit the `matched_alias` key;
reading an absent key yields `None`, so the field is `none` there. -/
structure MatchResult where
  step_id : Option String
  match_type : String
  score : ℚ
  matched_alias : Option String
deriving DecidableEq, Repr

/-- Substring-candidate accumulator state of `match_step` rule 3:
candidate ids in append order, their scores, and the last alias stored
for each id. -/
structure FuzzyAcc where
  candidates : List String
  scores : List (String × ℚ)
  aliasOf : List (String × String)
deriving Repr

/-- One iteration of the rule-3 step-id loop of `match_step`. -/
def fuzzyStepFun (stepN : String) (acc : FuzzyAcc) (s : String) : FuzzyAcc :=
  let sn := normalizeText s
  if pyIn sn stepN then
    { candidates := acc.candidates ++ [s]
      scores := aset acc.scores s ((sn.data.length : ℚ) / (max stepN.data.length 1 : ℚ))
      aliasOf := aset acc.aliasOf s s }
  else acc

/-- Rule-3 step-id loop of `match_step`: a step id whose normalized form
appears inside the normalized raw text becomes a candidate with score
`len(sn) / max(len(step_n), 1)`. -/
def fuzzyStepsPass (stepN : String) (steps : List String) : FuzzyAcc :=
  steps.foldl (fuzzyStepFun stepN) ⟨[], [], []⟩

/-- One iteration of the inner alias loop of `match_step`'s rule 3. -/
def fuzzyAliasFun (stepN canonStep : String) (acc : FuzzyAcc) (al : String) : FuzzyAcc :=
  let an := normalizeText al
  if pyIn an stepN then
    { candidates := acc.candidates ++ [canonStep]
      scores :=
        aset acc.scores canonStep
          (max ((alookup acc.scores canonStep).getD 0)
            ((an.data.length : ℚ) / (max stepN.data.length 1 : ℚ)))
      aliasOf := aset acc.aliasOf canonStep al }
  else acc

/-- Rule-3 alias loop of `match_step`: an alias whose normalized form
appears inside the normalized raw text adds its step as a candidate;
the stored score is the maximum ratio seen for that step and the stored
alias is the last matching alias. -/
def fuzzyAliasPass (stepN : String) (acc : FuzzyAcc)
    (stepAliases : List (String × List String)) : FuzzyAcc :=
  stepAliases.foldl (fun acc p => p.2.foldl (fuzzyAliasFun stepN p.1) acc) acc

/-- The empty-handed result of `match_step` (guard paths after `step_n`
was computed, and the final no-match path). -/
def noMatchResult : MatchResult :=
  ⟨none, "none", 0, none⟩

/-- `match_step(step_raw, canonical_process, process_catalog,
return_details=True)` from `catalog/canonicalize.py`: guards for falsy
input, unknown process and empty normalized text; then exact match on
step ids (under `norm_text`), exact match on step aliases (under
`normalize_text`), and unique substring containment of catalog text in
the raw text with ratio score clamped to `[0.01, 1.0]`. -/
def matchStepDetailed (stepRaw : Option String) (canonicalProcess : Option String)
    (catalog : ProcessCatalog) : MatchResult :=
  if ¬ optTruthy stepRaw ∨ ¬ optTruthy canonicalProcess then
    ⟨none, "none", 0, none⟩
  else
    match alookup catalog.processes (canonicalProcess.getD "") with
    | none => ⟨none, "none", 0, none⟩
    | some spec =>
      let raw := stepRaw.getD ""
      let stepN := normalizeText raw
      if stepN = "" then noMatchResult
      else
        match spec.steps.find? fun s => normText raw == normText s with
        | some s => ⟨some s, "exact", 1, none⟩
        | none =>
          match
            spec.step_aliases.find? fun p => p.2.any fun a => stepN == normalizeText a
          with
          | some p =>
            ⟨some p.1, "alias", 1, p.2.find? fun a => stepN == normalizeText a⟩
          | none =>
            let acc := fuzzyAliasPass stepN (fuzzyStepsPass stepN spec.steps)
              spec.step_aliases
            match uniqueList acc.candidates with
            | [stepId] =>
              let score := max (1 / 100) (min 1 ((alookup acc.scores stepId).getD (1 / 2)))
              ⟨some stepId, "fuzzy", score, alookup acc.aliasOf stepId⟩
            | _ => noMatchResult

/-- `match_step` with `return_details=False`: the same computation,
returning only the step id. -/
def matchStep (stepRaw : Option String) (canonicalProcess : Option String)
    (catalog : ProcessCatalog) : Option String :=
  (matchStepDetailed stepRaw canonicalProcess catalog).step_id

/-! ### Alias deduplication (`catalog/normalize.py`) -/

/-- Loop of `dedupe_aliases`: drop aliases whose `normalize_text` key is
empty or already seen; keep the first literal form. -/
def dedupeGo (seen : List String) : List String → List String
  | [] => []
  | a :: rest =>
    let key := normalizeText a
    if key = "" || key ∈ seen then dedupeGo seen rest
    else a :: dedupeGo (key :: seen) rest

/-- `dedupe_aliases(aliases)`. -/
def dedupeAliases (l : List String) : List String :=
  dedupeGo [] l

/-! ### Unified catalog loading (`catalog/loader.py`) -/

/-- The relevant keys of a raw `health` mapping in a flat process spec
(read with defaults 7 and 14).  A missing or empty mapping is modelled
as `none`; a non-empty mapping without these keys behaves like a record
with both fields `none`. -/
structure HealthRaw where
  at_risk_after_days : Option Int := none
  overdue_after_days : Option Int := none
deriving DecidableEq, Repr

/-- One process entry of the flat process-catalog document, as read by
`_compile_from_process_catalog`. -/
structure FlatSpec where
  steps : List String := []
  process_aliases : List String := []
  step_aliases : List (String × List String) := []
  health : Option HealthRaw := none
  display_name : Option String := none
  owner : Option String := none
deriving DecidableEq, Repr

/-- `_coerce_health(raw)` from `catalog/loader.py`: defaults
`at_risk_after_days = 7`, `overdue_after_days = 14`. -/
def coerceHealth (raw : Option HealthRaw) : HealthSpec :=
  match raw with
  | none => ⟨7, 14⟩
  | some r => ⟨r.at_risk_after_days.getD 7, r.overdue_after_days.getD 14⟩

/-- `_compile_from_process_catalog(process_id, spec)` from
`catalog/loader.py`: fails when the step list is empty, when the
normalized steps are not pairwise distinct, or when
`overdue_after_days < at_risk_after_days`. -/
def compileFromProcessCatalog (processId : String) (spec : FlatSpec) :
    Except String CatalogProcess :=
  let steps := spec.steps
  if steps = [] then
    .error ("process " ++ processId ++ " must define non-empty steps")
  else
    let normed := steps.map normalizeText
    if (uniqueList normed).length ≠ normed.length then
      .error ("process " ++ processId ++ " steps must be unique after normalization")
    else
      let health := coerceHealth spec.health
      if health.overdue_after_days < health.at_risk_after_days then
        .error ("process " ++ processId ++ " health thresholds invalid")
      else
        .ok
          { process_id := processId
            display_name := pyOrD spec.display_name processId
            owner := spec.owner
            steps := steps
            process_aliases := dedupeAliases spec.process_aliases
            step_aliases := spec.step_aliases.map fun p => (p.1, dedupeAliases p.2)
            health := health }

/-- Loop of `load_unified_catalog` over the flat-spec `processes`
mapping: the ids `"hiring"` and `"recruiting"` are skipped; every other
entry is compiled (a `None` spec behaves as the empty mapping) and
inserted into the accumulated catalog. -/
def loadUnifiedGo (compiled : List (String × CatalogProcess)) :
    List (String × Option FlatSpec) → Except String (List (String × CatalogProcess))
  | [] => .ok compiled
  | (pid, spec) :: rest =>
    if pid = "hiring" || pid = "recruiting" then loadUnifiedGo compiled rest
    else
      match compileFromProcessCatalog pid (spec.getD {}) with
      | .error e => .error e
      | .ok cp => loadUnifiedGo (aset compiled pid cp) rest

/-- `load_unified_catalog`, past the file loading: the specially
compiled recruiting process (`compile_recruiting`, passed in already
compiled) is installed under the id `"recruiting"`, then the flat-spec
processes are merged in. -/
def loadUnifiedCatalog (recruiting : CatalogProcess)
    (processes : List (String × Option FlatSpec)) : Except String ProcessCatalog :=
  (loadUnifiedGo [("recruiting", recruiting)] processes).map ProcessCatalog.mk

/-! ### Instance records (`pipeline/stage3_postprocess.py` and
`pipeline/reconciliation.py`) -/

/-- The `state` sub-record of an instance, with the keys read by the
enricher and the reconciliation engine. -/
structure StateRec where
  status : Option String := none
  step : Option String := none
  confidence : Option ℚ := none
  last_updated_at : Option String := none
  current_step_id : Option String := none
  step_id : Option String := none
  canonical_step_id : Option String := none
deriving DecidableEq, Repr

/-- One evidence entry (`{message_id, ...}`). -/
structure EvidenceRec where
  message_id : Option String := none
deriving DecidableEq, Repr

/-- An instance record, with every key read by `_compute_steps`,
`_compute_health` and `reconcile_instances`. -/
structure Instance where
  instance_key : Option String := none
  candidate_client : Option String := none
  candidate_role : Option String := none
  candidate_process : Option String := none
  candidate_client_raw : Option String := none
  candidate_role_raw : Option String := none
  candidate_process_raw : Option String := none
  canonical_client : Option String := none
  canonical_role : Option String := none
  canonical_process : Option String := none
  owner : Option String := none
  state : Option StateRec := none
  evidence : List EvidenceRec := []
  evidence_message_ids : List String := []
  steps_total : Option Nat := none
  steps_done : Option Nat := none
  steps_state : Option (List (String × String)) := none
  canonical_current_step_id : Option String := none
  canonical_current_step_match_type : Option String := none
  canonical_current_step_match_score : Option ℚ := none
  canonical_current_step_matched_alias : Option String := none
  health : Option String := none
  current_step_id : Option String := none
  step_id : Option String := none
  canonical_step_id : Option String := none
deriving DecidableEq, Repr

/-- `instance.get("state") or {}`. -/
def stateD (inst : Instance) : StateRec :=
  inst.state.getD {}

/-! ### Step-state enrichment (`stage3_postprocess.py`, `_compute_steps`) -/

/-- The no-catalog branch of `_compute_steps`: null out the computed
fields and record an empty match. -/
def computeStepsNull (inst : Instance) : Instance :=
  { inst with
    steps_total := none
    steps_done := none
    steps_state := none
    canonical_current_step_id := none
    canonical_current_step_match_type := some "none"
    canonical_current_step_match_score := some 0
    canonical_current_step_matched_alias := none }

/-- One iteration of the positional fill loop of `_compute_steps`. -/
def fillStepsFun (matched status : String) (acc : Bool × Nat × List (String × String))
    (s : String) : Bool × Nat × List (String × String) :=
  let (seenMatched, stepsDone, ss) := acc
  if s = matched then
    if status = "blocked" then (true, stepsDone, aset ss s "blocked")
    else if status = "done" then (true, stepsDone + 1, aset ss s "completed")
    else (true, stepsDone, aset ss s "in_progress")
  else if ¬ seenMatched then (seenMatched, stepsDone + 1, aset ss s "completed")
  else (seenMatched, stepsDone, aset ss s "not_started")

/-- The positional fill loop of `_compute_steps`: steps before the
first occurrence of the matched step are `completed` (counted in
`steps_done`), the matched step's state derives from the instance
status (`blocked` → `blocked`, `done` → `completed` and counted, else
`in_progress`), later steps are `not_started`. -/
def fillSteps (steps : List String) (matched status : String) :
    Bool × Nat × List (String × String) :=
  steps.foldl (fillStepsFun matched status) (false, 0, [])

/-- `_compute_steps(instance, process_catalog)`: guard on a missing
canonical process or catalog entry, run `match_step` on the free-text
current step, record the detailed match, then fill per-step states
positionally; an unmatched step yields an all-`unknown` state map. -/
def computeSteps (inst : Instance) (processCatalog : Option ProcessCatalog) : Instance :=
  match processCatalog with
  | none => computeStepsNull inst
  | some pc =>
    if ¬ optTruthy inst.canonical_process then computeStepsNull inst
    else
      match alookup pc.processes (inst.canonical_process.getD "") with
      | none => computeStepsNull inst
      | some spec =>
        let steps := spec.steps
        let m := matchStepDetailed (stateD inst).step inst.canonical_process pc
        let inst :=
          { inst with
            canonical_current_step_id := m.step_id
            canonical_current_step_match_type := some m.match_type
            canonical_current_step_match_score := some m.score
            canonical_current_step_matched_alias := m.matched_alias }
        match m.step_id with
        | none =>
          { inst with
            steps_total := some steps.length
            steps_done := some 0
            steps_state := some (steps.foldl (fun ss s => aset ss s "unknown") []) }
        | some matched =>
          let status := pyOrD (stateD inst).status "unknown"
          let (_, stepsDone, ss) := fillSteps steps matched status
          if matched ∈ steps then
            { inst with
              steps_total := some steps.length
              steps_done := some stepsDone
              steps_state := some ss }
          else
            { inst with
              steps_total := some steps.length
              steps_done := some 0
              steps_state := some (steps.foldl (fun ss s => aset ss s "unknown") []) }

/-! ### Health enrichment (`stage3_postprocess.py`, `_compute_health`) -/

/-- `str.replace("Z", "+00:00")`: every occurrence. -/
def replaceAllZ (t : String) : String :=
  ⟨t.data.flatMap fun c => if c = 'Z' then "+00:00".data else [c]⟩

/-- `_safe_parse_iso(ts)` from `stage3_postprocess.py`, parameterized by
`fromIso` (the model of `datetime.fromisoformat` composed with
naive-to-UTC defaulting, yielding epoch seconds). -/
def safeParseIso (fromIso : String → Option ℚ) (ts : Option String) : Option ℚ :=
  match ts with
  | none => none
  | some t =>
    if t = "" then none
    else if t.data.getLast? = some 'Z' then fromIso (replaceAllZ t)
    else fromIso t

/-- The threshold lookup of `_compute_health`: the matched process's
health spec, or nothing when there is no catalog, no canonical process
or no catalog entry. -/
def healthThresholds (inst : Instance) (processCatalog : Option ProcessCatalog) :
    Option HealthSpec :=
  match processCatalog with
  | none => none
  | some pc =>
    if ¬ optTruthy inst.canonical_process then none
    else (alookup pc.processes (inst.canonical_process.getD "")).map (·.health)

/-- The branch chain of `_compute_health` once a timestamp parsed:
overdue by threshold, else blocked → at risk, else stale → at risk,
else on track; a missing threshold never fires. -/
def healthVerdict (thresholds : Option HealthSpec) (status : String)
    (deltaDays : ℚ) : String :=
  let overdueHit :=
    match thresholds with
    | some h => decide ((h.overdue_after_days : ℚ) ≤ deltaDays)
    | none => false
  let atRiskHit :=
    match thresholds with
    | some h => decide ((h.at_risk_after_days : ℚ) ≤ deltaDays)
    | none => false
  if overdueHit then "overdue"
  else if status = "blocked" then "at_risk"
  else if atRiskHit then "at_risk"
  else "on_track"

/-- `_compute_health(instance, process_catalog, now)`: `unknown` when
`last_updated_at` is missing or unparsable; otherwise thresholds are
taken from the matched process's health spec (there is no default when
the process is absent), compared against elapsed days, with `blocked`
status forcing at least `at_risk` below the overdue threshold. -/
def computeHealth (inst : Instance) (processCatalog : Option ProcessCatalog)
    (now : ℚ) (fromIso : String → Option ℚ) : Instance :=
  match safeParseIso fromIso (stateD inst).last_updated_at with
  | none => { inst with health := some "unknown" }
  | some t =>
    { inst with
      health := some
        (healthVerdict (healthThresholds inst processCatalog)
          (pyLower ((stateD inst).status.getD "")) ((now - t) / 86400)) }

/-! ### Workflow definition (`pipeline/reconciliation.py`) -/

/-- The keys of a process entry of the definition document read by
`resolve_definition_process_id` (`proc.get("name")`). -/
structure DefProcess where
  name : Option String := none
deriving DecidableEq, Repr

/-- Phase / step metadata rows of the compiled definition
(`{"id": ..., "name": ...}`). -/
structure DefInfo where
  id : String
  name : Option String := none
deriving DecidableEq, Repr

/-- The `WorkflowDefinition` dataclass: insertion-ordered lookup tables
produced by `build_workflow_definition`. -/
structure WorkflowDefinition where
  processes_by_id : List (String × DefProcess) := []
  process_steps_in_order : List (String × List String) := []
  step_to_phase : List ((String × String) × String) := []
  phase_to_steps : List ((String × String) × List String) := []
  phases_in_order : List (String × List String) := []
  phase_info : List ((String × String) × DefInfo) := []
  step_info : List ((String × String) × DefInfo) := []
deriving DecidableEq, Repr

/-- Membership of an optional string in a key list (Python's
`value in keys` where `value` may be `None`). -/
def optMemS (o : Option String) (l : List String) : Bool :=
  match o with
  | none => false
  | some s => s ∈ l

/-- `resolve_definition_process_id(canonical_process, definition,
hiring_process_keys)`: direct key hit, then normalized id/name match,
then the first definition process that is one of the hiring keys. -/
def resolveDefinitionProcessId (canonicalProcess : Option String)
    (defn : WorkflowDefinition) (hiringKeys : List String) : Option String :=
  if ¬ optTruthy canonicalProcess then none
  else
    let cp := canonicalProcess.getD ""
    if (alookup defn.processes_by_id cp).isSome then some cp
    else
      let canonNorm := reconNormText canonicalProcess
      match
        defn.processes_by_id.find? fun p =>
          reconNormText (some p.1) == canonNorm || reconNormText p.2.name == canonNorm
      with
      | some p => some p.1
      | none =>
        match defn.processes_by_id.find? fun p => p.1 ∈ hiringKeys with
        | some p => some p.1
        | none => none

/-- Display name of a step in the definition
(`step_info.get((process_id, step_id), {}).get("name") or ""`). -/
def defStepName (defn : WorkflowDefinition) (processId stepId : String) : String :=
  pyOrD ((alookup defn.step_info (processId, stepId)).bind (·.name)) ""

/-- Loop of `match_step_in_definition`: an exact normalized match on a
step id or step name returns immediately; containment in either
direction accumulates candidates; a unique candidate set of size one
resolves to its first element. -/
def matchStepInDefGo (defn : WorkflowDefinition) (processId rawNorm : String)
    (candidates : List String) : List String → Option String
  | [] => if candidates.dedup.length = 1 then candidates.head? else none
  | stepId :: rest =>
    let stepName := defStepName defn processId stepId
    if reconNormText (some stepId) == rawNorm || reconNormText (some stepName) == rawNorm then
      some stepId
    else
      let stepNorm := reconNormText (some stepId)
      let nameNorm := reconNormText (some stepName)
      if stepNorm ≠ "" ∧ (pyIn stepNorm rawNorm || pyIn rawNorm stepNorm) then
        matchStepInDefGo defn processId rawNorm (candidates ++ [stepId]) rest
      else if nameNorm ≠ "" ∧ (pyIn nameNorm rawNorm || pyIn rawNorm nameNorm) then
        matchStepInDefGo defn processId rawNorm (candidates ++ [stepId]) rest
      else
        matchStepInDefGo defn processId rawNorm candidates rest

/-- `match_step_in_definition(raw_step, process_id, definition)`. -/
def matchStepInDefinition (rawStep : Option String) (processId : Option String)
    (defn : WorkflowDefinition) : Option String :=
  if ¬ optTruthy rawStep ∨ ¬ optTruthy processId then none
  else
    match alookup defn.process_steps_in_order (processId.getD "") with
    | none => none
    | some steps =>
      if steps = [] then none
      else
        let rawNorm := reconNormText rawStep
        if rawNorm = "" then none
        else matchStepInDefGo defn (processId.getD "") rawNorm [] steps

/-- `derive_current_step_id(instance, process_id, definition)`: try the
explicit step-id keys (state first, then the instance), then scan the
`steps_state` mapping for an in-progress or blocked step (falling back
to the last completed one), then match the free-text step. -/
def deriveCurrentStepId (inst : Instance) (processId : Option String)
    (defn : WorkflowDefinition) : Option String :=
  if ¬ optTruthy processId then none
  else
    match alookup defn.process_steps_in_order (processId.getD "") with
    | none => none
    | some steps =>
      if steps = [] then none
      else
        let st := stateD inst
        let keyCands := [pyOrS st.current_step_id inst.current_step_id,
          pyOrS st.step_id inst.step_id,
          pyOrS st.canonical_step_id inst.canonical_step_id]
        match keyCands.find? fun c => optMemS c steps with
        | some c => c
        | none =>
          let fromState :=
            match inst.steps_state with
            | none => none
            | some ss =>
              match
                steps.find? fun sid =>
                  (alookup ss sid) ∈ [some "in_progress", some "blocked"]
              with
              | some sid => some sid
              | none =>
                let completed := steps.filter fun sid =>
                  (alookup ss sid) ∈ [some "completed", some "completed_inferred"]
                if completed ≠ [] then completed.getLast? else none
          match fromState with
          | some sid => some sid
          | none => matchStepInDefinition st.step processId defn

/-- One row of an inferred step list (`{"id", "name", "status"}`). -/
structure StepOut where
  id : String
  name : Option String := none
  status : String
deriving DecidableEq, Repr

/-- One row of an inferred phase list. -/
structure PhaseOut where
  id : String
  name : Option String := none
  status : String
deriving DecidableEq, Repr

/-- `infer_steps_from_position(process_id, definition, current_step_id,
status, completed_label)`: steps strictly before the (first occurrence
of the) current step get `completed_label`, the current step's status
derives from the lowercased instance status, later steps are
`not_started`. -/
def inferStepsFromPosition (processId : Option String) (defn : WorkflowDefinition)
    (currentStepId : Option String) (status : Option String) (completedLabel : String) :
    Option (List StepOut) :=
  if ¬ optTruthy processId ∨ ¬ optTruthy currentStepId then none
  else
    match alookup defn.process_steps_in_order (processId.getD "") with
    | none => none
    | some steps =>
      if steps = [] then none
      else
        let current := currentStepId.getD ""
        if current ∉ steps then none
        else
          let statusNorm := pyLower (status.getD "")
          let index := steps.indexOf current
          some <| steps.enum.map fun p =>
            let stepStatus :=
              if p.1 < index then completedLabel
              else if p.1 = index then
                if statusNorm = "blocked" then "blocked"
                else if statusNorm = "done" ∨ statusNorm = "completed" then "completed"
                else "in_progress"
              else "not_started"
            ⟨p.2, (alookup defn.step_info (processId.getD "", p.2)).bind (·.name), stepStatus⟩

/-- `infer_phase_id(process_id, current_step_id, definition)`. -/
def inferPhaseId (processId currentStepId : Option String)
    (defn : WorkflowDefinition) : String :=
  if ¬ optTruthy processId ∨ ¬ optTruthy currentStepId then "unknown"
  else (alookup defn.step_to_phase (processId.getD "", currentStepId.getD "")).getD "unknown"

/-- `infer_phases_from_steps(process_id, definition, steps,
completed_label)`: a phase is completed when all of its step statuses
are `completed`/`completed_label`, in progress when any is
`in_progress`/`blocked`, unknown when it has no steps. -/
def inferPhasesFromSteps (processId : Option String) (defn : WorkflowDefinition)
    (steps : Option (List StepOut)) (completedLabel : String) :
    Option (List PhaseOut) :=
  if ¬ optTruthy processId ∨ steps = none ∨ steps = some [] then none
  else
    match alookup defn.phases_in_order (processId.getD "") with
    | none => none
    | some phases =>
      if phases = [] then none
      else
        let statusByStep :=
          (steps.getD []).foldl (fun m s => aset m s.id s.status) []
        some <| phases.map fun phaseId =>
          let phaseSteps := (alookup defn.phase_to_steps (processId.getD "", phaseId)).getD []
          let statuses := phaseSteps.map fun sid => alookup statusByStep sid
          let phaseStatus :=
            if statuses = [] then "unknown"
            else if statuses.all fun s => s = some "completed" ∨ s = some completedLabel then
              completedLabel
            else if statuses.any fun s => s = some "in_progress" ∨ s = some "blocked" then
              "in_progress"
            else "not_started"
          ⟨phaseId, (alookup defn.phase_info (processId.getD "", phaseId)).bind (·.name),
            phaseStatus⟩

/-! ### Workflow store records (`pipeline/reconciliation.py`) -/

/-- The `reconciliation` audit sub-record. -/
structure ReconRecord where
  match_type : String
  match_score : ℚ
  matched_workflow_id : Option String := none
deriving DecidableEq, Repr

/-- The `observability` sub-record of a stored workflow. -/
structure Observability where
  source_instance_key : Option String := none
  last_updated_at : Option String := none
  confidence : Option ℚ := none
  health : Option String := none
  evidence_message_ids : List String := []
  canonical_process : Option String := none
  canonical_client : Option String := none
  canonical_role : Option String := none
  reconciliation : Option ReconRecord := none
deriving DecidableEq, Repr

/-- A persistent workflow record, with every key read or written by
`reconcile_instances`. -/
structure Workflow where
  workflow_id : Option String := none
  process_id : Option String := none
  phase_id : Option String := none
  client : Option String := none
  role : Option String := none
  display_name : Option String := none
  steps : Option (List StepOut) := none
  phases : Option (List PhaseOut) := none
  observability : Option Observability := none
deriving DecidableEq, Repr

/-- `generate_workflow_id(...)`, parameterized by `digest` (the first
twelve hex digits of `hashlib.sha1`, outside this repository): the
canonical triple when complete, otherwise the instance key (Python
renders a missing key as the string `"None"` inside the f-string)
combined with the raw fields. -/
def generateWorkflowId (digest : String → String)
    (canonicalProcess canonicalClient canonicalRole instanceKey rawClient rawRole :
      Option String) : String :=
  let base :=
    if optTruthy canonicalProcess ∧ optTruthy canonicalClient ∧ optTruthy canonicalRole then
      canonicalProcess.getD "" ++ "|" ++ canonicalClient.getD "" ++ "|" ++
        canonicalRole.getD ""
    else
      instanceKey.getD "None" ++ "|" ++
        (if optTruthy canonicalProcess then canonicalProcess.getD "" else "") ++ "|" ++
        (if optTruthy rawClient then rawClient.getD "" else "") ++ "|" ++
        (if optTruthy rawRole then rawRole.getD "" else "")
  "wf_" ++ digest base

/-- `_display_name(role, client)`. -/
def displayName (role client : Option String) : String :=
  pyOrD role "Unknown Role" ++ " - " ++ pyOrD client "Unknown Client"

/-- `_display_key(role, client, process_id)`. -/
def displayKey (role client processId : Option String) : String :=
  pyOrD role "Unknown Role" ++ " - " ++ pyOrD client "Unknown Client" ++ " - " ++
    pyOrD processId "unknown"

/-! ### Reconciliation configuration (`_get_reconciliation_config`) -/

/-- `reconcile.match` settings with the source's defaults. -/
structure MatchSettings where
  method : String := "key_then_fuzzy"
  exact_key_fields : List String :=
    ["canonical_client", "canonical_role", "canonical_process"]
  fuzzy_threshold : ℚ := 88 / 100
deriving Repr

/-- `reconcile.evidence` settings with the source's defaults. -/
structure EvidenceSettings where
  max_ids_per_instance : Nat := 200
  timeline_fallback_max : Nat := 30
deriving Repr

/-- `scope` settings with the source's defaults. -/
structure ScopeSettings where
  hiring_only : Bool := true
  hiring_process_keys : List String := ["recruiting", "hiring"]
deriving Repr

/-- `inference.positional` settings with the source's defaults. -/
structure PositionalSettings where
  enabled : Bool := true
  completed_label : String := "completed_inferred"
deriving Repr

/-- The settings record produced by `_get_reconciliation_config`,
restricted to the parts consumed by `reconcile_instances` (the
`enabled` flag and the store / report file names are only used by the
file-level driver `run_reconciliation`, which is I/O). -/
structure Settings where
  scope : ScopeSettings := {}
  matchSettings : MatchSettings := {}
  evidence : EvidenceSettings := {}
  positional : PositionalSettings := {}
deriving Repr

/-- The settings produced by `_get_reconciliation_config` from an empty
configuration document: every default. -/
def defaultSettings : Settings := {}

/-! ### Foreign library functions -/

/-- The standard-library functions used by `reconcile_instances` that
are not part of this repository, passed as parameters: `ratio` is
`difflib.SequenceMatcher(None, a, b).ratio()`, `digest` the first
twelve hex digits of `hashlib.sha1(...).hexdigest()`, `round4` Python's
`round(x, 4)`, `fromIso` `datetime.fromisoformat` composed with
naive-to-UTC defaulting (epoch seconds), `nowIso` `utc_now_iso()`. -/
structure Foreign where
  ratio : String → String → ℚ
  digest : String → String
  round4 : ℚ → ℚ
  fromIso : String → Option ℚ
  nowIso : String

/-- `_similarity(a, b)`: the sequence ratio of the lowercased inputs. -/
def similarity (ext : Foreign) (a b : String) : ℚ :=
  ext.ratio (pyLower a) (pyLower b)

/-- `_coverage_pct(n, total)`. -/
def coveragePct (ext : Foreign) (n total : Nat) : ℚ :=
  if total = 0 then 0 else ext.round4 ((n : ℚ) / (total : ℚ))

/-- `_is_known_role(canon_role)`. -/
def isKnownRole (canonRole : Option String) : Bool :=
  ¬ (canonRole = none ∨ canonRole = some "" ∨ canonRole = some "Other" ∨
    canonRole = some "Unknown")

/-! ### Evidence extraction (`_extract_evidence_ids`) -/

/-- Python's `l[-n:]` for `n ≥ 0` (`l[-0:]` is the whole list). -/
def pyTakeLast (n : Nat) (l : List String) : List String :=
  if n = 0 then l else l.drop (l.length - n)

/-- `_extract_evidence_ids(instance, timeline_by_instance, max_ids,
fallback_max)`: explicit evidence ids, else evidence-entry message ids,
else the tail of the instance's timeline; deduplicated and capped. -/
def extractEvidenceIds (inst : Instance)
    (timeline : Option (List (String × List EvidenceRec))) (maxIds fallbackMax : Nat) :
    List String :=
  let ids := inst.evidence_message_ids.filter fun mid => mid ≠ ""
  let ids :=
    if ids = [] then
      inst.evidence.filterMap fun ev =>
        match ev.message_id with
        | some m => if m ≠ "" then some m else none
        | none => none
    else ids
  let ids :=
    if ids = [] ∧ timeline.isSome then
      let tl :=
        match inst.instance_key with
        | some k => (alookup (timeline.getD []) k).getD []
        | none => []
      let timelineIds := tl.filterMap fun t =>
        match t.message_id with
        | some m => if m ≠ "" then some m else none
        | none => none
      if timelineIds ≠ [] then pyTakeLast fallbackMax timelineIds else ids
    else ids
  mergeEvidenceIds [] ids maxIds

/-! ### The reconciliation loop (`reconcile_instances`) -/

/-- The `match_counts` dictionary. -/
structure MatchCounts where
  exact : Nat := 0
  fuzzy : Nat := 0
  created : Nat := 0
deriving DecidableEq, Repr

/-- `match_counts[match_type] += 1` (the match type is always one of
the three keys). -/
def MatchCounts.incr (mc : MatchCounts) (matchType : String) : MatchCounts :=
  if matchType = "exact" then { mc with exact := mc.exact + 1 }
  else if matchType = "fuzzy" then { mc with fuzzy := mc.fuzzy + 1 }
  else { mc with created := mc.created + 1 }

/-- The mutable state of the reconciliation loop.  The shared mutable
workflow dicts of the source (held simultaneously by the `workflows`
list, the `existing_exact` index and the `existing_fuzzy` list) are
modelled by indices into the `workflows` array. -/
structure RState where
  workflows : Array Workflow := #[]
  existing_exact : List (List String × Nat) := []
  existing_fuzzy : List (Nat × String) := []
  cov_process : Nat := 0
  cov_client : Nat := 0
  cov_step : Nat := 0
  cov_health : Nat := 0
  cov_evidence : Nat := 0
  role_detected : Nat := 0
  role_strict : Nat := 0
  role_other : Nat := 0
  role_missing : Nat := 0
  canonical_step_present : Nat := 0
  step_match_failures : List (String × Nat) := []
  hiring_total : Nat := 0
  non_hiring_missing_process : Nat := 0
  non_hiring_not_hiring : Nat := 0
  drift_client : List (String × Nat) := []
  drift_role : List (String × Nat) := []
  drift_process : List (String × Nat) := []
  drift_step : List (String × Nat) := []
  match_counts : MatchCounts := {}
  hiring_written_total : Nat := 0
  hiring_steps_populated : Nat := 0
  hiring_phase_known : Nat := 0
  hiring_evidence : Nat := 0

/-- Instance field lookup by configured field name
(`inst.get(field)`), for the string-valued instance keys. -/
def instGet (inst : Instance) : String → Option String
  | "instance_key" => inst.instance_key
  | "candidate_client" => inst.candidate_client
  | "candidate_role" => inst.candidate_role
  | "candidate_process" => inst.candidate_process
  | "candidate_client_raw" => inst.candidate_client_raw
  | "candidate_role_raw" => inst.candidate_role_raw
  | "candidate_process_raw" => inst.candidate_process_raw
  | "canonical_client" => inst.canonical_client
  | "canonical_role" => inst.canonical_role
  | "canonical_process" => inst.canonical_process
  | "owner" => inst.owner
  | "health" => inst.health
  | _ => none

/-- Workflow field lookup by configured field name (`wf.get(field)`),
for the string-valued workflow keys. -/
def wfGet (wf : Workflow) : String → Option String
  | "workflow_id" => wf.workflow_id
  | "process_id" => wf.process_id
  | "phase_id" => wf.phase_id
  | "client" => wf.client
  | "role" => wf.role
  | "display_name" => wf.display_name
  | _ => none

/-- Observability field lookup by configured field name
(`obs.get(field)`), for the string-valued keys. -/
def obsGet (obs : Observability) : String → Option String
  | "source_instance_key" => obs.source_instance_key
  | "last_updated_at" => obs.last_updated_at
  | "health" => obs.health
  | "canonical_process" => obs.canonical_process
  | "canonical_client" => obs.canonical_client
  | "canonical_role" => obs.canonical_role
  | _ => none

/-- Inner loop of `workflow_exact_key`: each configured field resolves
through the observability record with a workflow-field fallback; any
falsy component aborts the key. -/
def exactKeyGo (obs : Observability) (wf : Workflow) : List String → Option (List String)
  | [] => some []
  | f :: rest =>
    let val :=
      if f = "canonical_process" then pyOrS obs.canonical_process wf.process_id
      else if f = "canonical_client" then pyOrS obs.canonical_client wf.client
      else if f = "canonical_role" then pyOrS obs.canonical_role wf.role
      else pyOrS (obsGet obs f) (wfGet wf f)
    if ¬ optTruthy val then none
    else (exactKeyGo obs wf rest).map fun vs => val.getD "" :: vs

/-- `workflow_exact_key(wf)` for a configured field list. -/
def workflowExactKey (exactFields : List String) (wf : Workflow) :
    Option (List String) :=
  exactKeyGo (wf.observability.getD {}) wf exactFields

/-- Python truthiness of the optional key tuple (`None` and the empty
tuple are falsy). -/
def keyTruthy : Option (List String) → Bool
  | none => false
  | some l => ¬ l.isEmpty

/-- The fuzzy scan over `existing_fuzzy`: best strictly-greater score
wins, first encountered wins ties. -/
def fuzzyBest (ext : Foreign) (display : String) (entries : List (Nat × String)) :
    Option Nat × ℚ :=
  entries.foldl
    (fun acc p =>
      let score := similarity ext display p.2
      if acc.2 < score then (some p.1, score) else acc)
    (none, 0)

/-- The per-instance values computed at the top of the loop body of
`reconcile_instances`, before the scope test. -/
structure InstFacts where
  canonProcess : Option String
  canonClient : Option String
  canonRole : Option String
  canonRoleNorm : String
  instanceKey : Option String
  evidenceIds : List String
  processId : String
  definitionPid : Option String
  currentStepId : Option String
deriving Repr

/-- The derivations at the top of the loop body: canonical fields,
normalized role, extracted evidence ids, resolved definition process id
and the derived current step. -/
def deriveInstanceFacts (settings : Settings) (defn : WorkflowDefinition)
    (timeline : Option (List (String × List EvidenceRec))) (inst : Instance) : InstFacts :=
  let canonProcess := inst.canonical_process
  { canonProcess := canonProcess
    canonClient := inst.canonical_client
    canonRole := inst.canonical_role
    canonRoleNorm := pyStrip (inst.canonical_role.getD "")
    instanceKey := inst.instance_key
    evidenceIds :=
      extractEvidenceIds inst timeline settings.evidence.max_ids_per_instance
        settings.evidence.timeline_fallback_max
    processId := pyOrD canonProcess "unknown"
    definitionPid :=
      resolveDefinitionProcessId canonProcess defn settings.scope.hiring_process_keys
    currentStepId :=
      deriveCurrentStepId inst
        (resolveDefinitionProcessId canonProcess defn settings.scope.hiring_process_keys)
        defn }

/-- The coverage / role / funnel counter updates performed for every
instance before the scope test. -/
def updateCountersPhase (settings : Settings) (facts : InstFacts) (inst : Instance)
    (st : RState) : RState :=
  { st with
    cov_process := if optTruthy facts.canonProcess then st.cov_process + 1 else st.cov_process
    cov_client := if optTruthy facts.canonClient then st.cov_client + 1 else st.cov_client
    role_detected :=
      if facts.canonRoleNorm ≠ "" ∧ facts.canonRoleNorm ≠ "Unknown" then st.role_detected + 1
      else st.role_detected
    role_other :=
      if (facts.canonRoleNorm ≠ "" ∧ facts.canonRoleNorm ≠ "Unknown") ∧
          facts.canonRoleNorm = "Other" then st.role_other + 1
      else st.role_other
    role_strict :=
      if (facts.canonRoleNorm ≠ "" ∧ facts.canonRoleNorm ≠ "Unknown") ∧
          facts.canonRoleNorm ≠ "Other" then st.role_strict + 1
      else st.role_strict
    role_missing :=
      if ¬ (facts.canonRoleNorm ≠ "" ∧ facts.canonRoleNorm ≠ "Unknown") then st.role_missing + 1
      else st.role_missing
    cov_evidence := if facts.evidenceIds ≠ [] then st.cov_evidence + 1 else st.cov_evidence
    cov_health :=
      if inst.health ∈ [some "on_track", some "at_risk", some "overdue"] then st.cov_health + 1
      else st.cov_health
    cov_step := if optTruthy facts.currentStepId then st.cov_step + 1 else st.cov_step
    canonical_step_present :=
      if inst.canonical_current_step_id.isSome then st.canonical_step_present + 1
      else st.canonical_step_present
    step_match_failures :=
      if inst.canonical_current_step_match_type = some "none" then
        match (stateD inst).step with
        | some rawStep =>
          if rawStep ≠ "" then aincr st.step_match_failures rawStep
          else st.step_match_failures
        | none => st.step_match_failures
      else st.step_match_failures
    hiring_total :=
      if optMemS facts.canonProcess settings.scope.hiring_process_keys then st.hiring_total + 1
      else st.hiring_total
    non_hiring_missing_process :=
      if ¬ optMemS facts.canonProcess settings.scope.hiring_process_keys ∧
          ¬ optTruthy facts.canonProcess then st.non_hiring_missing_process + 1
      else st.non_hiring_missing_process
    non_hiring_not_hiring :=
      if ¬ optMemS facts.canonProcess settings.scope.hiring_process_keys ∧
          optTruthy facts.canonProcess then st.non_hiring_not_hiring + 1
      else st.non_hiring_not_hiring }

/-- The four drift-counter updates, shared by the skip branch and the
tail of the write branch. -/
def driftUpdatePhase (facts : InstFacts) (inst : Instance) (st : RState) : RState :=
  { st with
    drift_client :=
      if ¬ optTruthy facts.canonClient ∧ optTruthy inst.candidate_client_raw then
        aincr st.drift_client (inst.candidate_client_raw.getD "")
      else st.drift_client
    drift_role :=
      if ¬ isKnownRole facts.canonRole ∧ optTruthy inst.candidate_role_raw then
        aincr st.drift_role (inst.candidate_role_raw.getD "")
      else st.drift_role
    drift_process :=
      if ¬ optTruthy facts.canonProcess ∧ optTruthy inst.candidate_process_raw then
        aincr st.drift_process (inst.candidate_process_raw.getD "")
      else st.drift_process
    drift_step :=
      match (stateD inst).step with
      | some rawStep =>
        if rawStep ≠ "" ∧ ¬ optTruthy facts.currentStepId then aincr st.drift_step rawStep
        else st.drift_step
      | none => st.drift_step }

/-- The exact key of an instance under the configured key fields
(`exact_key` of the loop body). -/
def instExactKey (settings : Settings) (inst : Instance) : Option (List String) :=
  let exactFields := settings.matchSettings.exact_key_fields
  if exactFields.all fun f => optTruthy (instGet inst f) then
    some (exactFields.map fun f => (instGet inst f).getD "")
  else none

/-- The match attempt of the loop body: exact-key lookup first, then
the fuzzy display pass. -/
def matchAttemptOf (ext : Foreign) (settings : Settings) (facts : InstFacts)
    (inst : Instance) (st : RState) : Option Nat × String × ℚ :=
  let exactKey := instExactKey settings inst
  let fuzzyAttempt : Option Nat × String × ℚ :=
    let display :=
      displayKey (pyOrS facts.canonRole inst.candidate_role_raw)
        (pyOrS facts.canonClient inst.candidate_client_raw) (some facts.processId)
    let best := fuzzyBest ext display st.existing_fuzzy
    if best.1.isSome ∧ settings.matchSettings.fuzzy_threshold ≤ best.2 then
      (best.1, "fuzzy", best.2)
    else (none, "created", 0)
  if keyTruthy exactKey then
    match alookup st.existing_exact (exactKey.getD []) with
    | some idx => (some idx, "exact", 1)
    | none => fuzzyAttempt
  else fuzzyAttempt

/-- The match-or-create section of the loop body: find an existing
workflow index by exact key or fuzzy display, or create a fresh
workflow record, returning the index, match type, match score and the
updated state. -/
def matchOrCreate (ext : Foreign) (settings : Settings)
    (facts : InstFacts) (inst : Instance) (st : RState) : Nat × String × ℚ × RState :=
  match matchAttemptOf ext settings facts inst st with
  | (some idx, mt, ms) => (idx, mt, ms, st)
  | (none, _, _) =>
    let exactKey := instExactKey settings inst
    let workflowId :=
      generateWorkflowId ext.digest facts.canonProcess facts.canonClient facts.canonRole
        facts.instanceKey inst.candidate_client_raw inst.candidate_role_raw
    let idx := st.workflows.size
    let display :=
      displayKey (pyOrS facts.canonRole inst.candidate_role_raw)
        (pyOrS facts.canonClient inst.candidate_client_raw) (some facts.processId)
    let st :=
      { st with
        workflows := st.workflows.push { workflow_id := some workflowId }
        existing_fuzzy := st.existing_fuzzy ++ [(idx, display)]
        existing_exact :=
          if keyTruthy exactKey then aset st.existing_exact (exactKey.getD []) idx
          else st.existing_exact }
    (idx, "created", 1, st)

/-- The workflow-update section of the loop body: bump the funnel
counters, fill steps/phases positionally, rewrite the matched (or
fresh) workflow in place and finish with the drift updates. -/
def writeBack (ext : Foreign) (settings : Settings) (defn : WorkflowDefinition)
    (facts : InstFacts) (inst : Instance) (matchedIdx : Nat) (matchType : String)
    (matchScore : ℚ) (st : RState) : RState :=
  let maxIds := settings.evidence.max_ids_per_instance
  let st :=
    { st with
      match_counts := st.match_counts.incr matchType
      hiring_written_total := st.hiring_written_total + 1 }
  let steps :=
    if settings.positional.enabled then
      inferStepsFromPosition facts.definitionPid defn facts.currentStepId
        (stateD inst).status settings.positional.completed_label
    else none
  let phaseId := inferPhaseId facts.definitionPid facts.currentStepId defn
  let phases :=
    if settings.positional.enabled then
      inferPhasesFromSteps facts.definitionPid defn steps settings.positional.completed_label
    else none
  let st :=
    { st with
      hiring_steps_populated :=
        if steps ≠ none ∧ steps ≠ some [] then st.hiring_steps_populated + 1
        else st.hiring_steps_populated
      hiring_phase_known :=
        if phaseId ≠ "unknown" then st.hiring_phase_known + 1 else st.hiring_phase_known
      hiring_evidence :=
        if facts.evidenceIds ≠ [] then st.hiring_evidence + 1 else st.hiring_evidence }
  let wf := st.workflows.getD matchedIdx {}
  let newClient :=
    pyOrS (pyOrS facts.canonClient inst.candidate_client_raw) inst.candidate_client
  let newRole := pyOrS (pyOrS facts.canonRole inst.candidate_role_raw) inst.candidate_role
  let obs := wf.observability.getD {}
  let obs :=
    { obs with
      source_instance_key := facts.instanceKey
      last_updated_at :=
        chooseLatestTs ext.fromIso obs.last_updated_at (stateD inst).last_updated_at
      confidence := (stateD inst).confidence
      health := some (pyOrD inst.health "unknown")
      evidence_message_ids :=
        mergeEvidenceIds obs.evidence_message_ids facts.evidenceIds maxIds
      canonical_process := facts.canonProcess
      canonical_client := facts.canonClient
      canonical_role := facts.canonRole
      reconciliation :=
        some ⟨matchType, ext.round4 matchScore, wf.workflow_id⟩ }
  let wf :=
    { wf with
      process_id := some facts.processId
      phase_id := some phaseId
      client := newClient
      role := newRole
      display_name := some (displayName newRole newClient)
      steps := steps
      phases := phases
      observability := some obs }
  let st := { st with workflows := st.workflows.setD matchedIdx wf }
  driftUpdatePhase facts inst st

/-- The match-or-create section and the workflow update of the loop
body (everything after the scope test), ending in the drift updates. -/
def writePhase (ext : Foreign) (settings : Settings) (defn : WorkflowDefinition)
    (facts : InstFacts) (inst : Instance) (st : RState) : RState :=
  match matchOrCreate ext settings facts inst st with
  | (matchedIdx, matchType, matchScore, st) =>
    writeBack ext settings defn facts inst matchedIdx matchType matchScore st

/-- One iteration of the `for inst in instances` loop of
`reconcile_instances` over the loop state: derive the per-instance
facts, update the global counters, then either (out of scope) only
record drift, or match / create / update a workflow. -/
def processInstance (ext : Foreign) (settings : Settings) (defn : WorkflowDefinition)
    (timeline : Option (List (String × List EvidenceRec))) (st : RState)
    (inst : Instance) : RState :=
  let facts := deriveInstanceFacts settings defn timeline inst
  let st := updateCountersPhase settings facts inst st
  if settings.scope.hiring_only ∧
      ¬ optMemS facts.canonProcess settings.scope.hiring_process_keys then
    driftUpdatePhase facts inst st
  else
    writePhase ext settings defn facts inst st

/-- The initial loop state: the store list (restricted to hiring
processes when `hiring_only` is set), the exact-key index and the
fuzzy display list, built once from the restricted store. -/
def initialRState (settings : Settings) (storeWorkflows : List Workflow) : RState :=
  let workflows :=
    if settings.scope.hiring_only then
      storeWorkflows.filter fun wf => optMemS wf.process_id settings.scope.hiring_process_keys
    else storeWorkflows
  { workflows := workflows.toArray
    existing_exact :=
      workflows.enum.foldl
        (fun m p =>
          match workflowExactKey settings.matchSettings.exact_key_fields p.2 with
          | some key => if key.isEmpty then m else aset m key p.1
          | none => m)
        []
    existing_fuzzy :=
      workflows.enum.map fun p => (p.1, displayKey p.2.role p.2.client p.2.process_id) }

/-! ### A concrete ISO-timestamp parse model -/

/-- Numeric value of a decimal digit character. -/
def digitVal (c : Char) : Option Nat :=
  if c.isDigit then some (c.toNat - 48) else none

/-- Two-digit decimal number. -/
def twoDigits (a b : Char) : Option Nat :=
  match digitVal a, digitVal b with
  | some x, some y => some (x * 10 + y)
  | _, _ => none

/-- Leap-year test of the proleptic Gregorian calendar. -/
def isLeapYear (y : Nat) : Bool :=
  (y % 4 = 0 && y % 100 ≠ 0) || y % 400 = 0

/-- Days in a month of the proleptic Gregorian calendar. -/
def daysInMonth (y m : Nat) : Nat :=
  if m = 2 then (if isLeapYear y then 29 else 28)
  else if m ∈ [4, 6, 9, 11] then 30
  else 31

/-- Days from 1970-01-01 to the given civil date (valid dates of years
1-9999; always past year 0, so the arithmetic stays non-negative until
the final shift). -/
def daysFromCivil (y m d : Nat) : Int :=
  let y' := if m ≤ 2 then y - 1 else y
  let era := y' / 400
  let yoe := y' % 400
  let mp := (m + 9) % 12
  let doy := (153 * mp + 2) / 5 + d - 1
  let doe := yoe * 365 + yoe / 4 - yoe / 100 + doy
  (era * 146097 + doe : Int) - 719468

/-- Parse `YYYY-MM-DDTHH:MM:SS` (exactly 19 characters) to epoch
seconds, validating ranges. -/
def parseDateTime19 (l : List Char) : Option ℚ :=
  match l with
  | [y1, y2, y3, y4, s1, mo1, mo2, s2, d1, d2, s3, h1, h2, s4, mi1, mi2, s5, se1, se2] =>
    if s1 = '-' ∧ s2 = '-' ∧ s3 = 'T' ∧ s4 = ':' ∧ s5 = ':' then
      match twoDigits y1 y2, twoDigits y3 y4, twoDigits mo1 mo2, twoDigits d1 d2,
        twoDigits h1 h2, twoDigits mi1 mi2, twoDigits se1 se2 with
      | some yh, some yl, some mo, some d, some h, some mi, some se =>
        let y := yh * 100 + yl
        if 1 ≤ y ∧ 1 ≤ mo ∧ mo ≤ 12 ∧ 1 ≤ d ∧ d ≤ daysInMonth y mo ∧ h ≤ 23 ∧
            mi ≤ 59 ∧ se ≤ 59 then
          some ((daysFromCivil y mo d * 86400 + h * 3600 + mi * 60 + se : Int) : ℚ)
        else none
      | _, _, _, _, _, _, _ => none
    else none
  | _ => none

/-- Parse a `±HH:MM` UTC offset (sign included) to offset seconds. -/
def parseOffset (l : List Char) : Option Int :=
  match l with
  | [sg, h1, h2, c, m1, m2] =>
    if c = ':' ∧ (sg = '+' ∨ sg = '-') then
      match twoDigits h1 h2, twoDigits m1 m2 with
      | some h, some m =>
        if h ≤ 23 ∧ m ≤ 59 then
          let secs : Int := h * 3600 + m * 60
          some (if sg = '+' then secs else -secs)
        else none
      | _, _ => none
    else none
  | _ => none

/-- Modelled from the spec: Python's `datetime.fromisoformat` composed
with the naive-to-UTC defaulting done by both `_safe_parse_iso` and
`_parse_iso` (the standard library is outside this repository's
sources), restricted to the grammar `YYYY-MM-DDTHH:MM:SS` with an
optional `±HH:MM` offset; every other input is treated as unparsable.
The result is epoch seconds in UTC. -/
def fromIsoModel (s : String) : Option ℚ :=
  let l := s.data
  if l.length = 19 then parseDateTime19 l
  else if l.length = 25 then
    match parseDateTime19 (l.take 19), parseOffset (l.drop 19) with
    | some t, some off => some (t - (off : ℚ))
    | _, _ => none
  else none

/-- A concrete instantiation of the foreign-function bundle, used only
to evaluate closed statements: the sequence ratio is the trivial
constant (only exercised where its value is irrelevant), the digest is
the identity, rounding is exact, timestamps parse via `fromIsoModel`. -/
def testForeign : Foreign :=
  { ratio := fun _ _ => 0
    digest := fun s => s
    round4 := fun q => q
    fromIso := fromIsoModel
    nowIso := "2026-02-01T00:00:00+00:00" }

/-! ### Reports and the top-level engine -/

/-- The `role_metrics` block of the coverage report. -/
structure RoleMetrics where
  role_detected_pct : ℚ
  role_canonical_strict_pct : ℚ
  role_other_pct : ℚ
  role_missing_pct : ℚ
deriving Repr

/-- The `global` block of the coverage report. -/
structure GlobalCoverage where
  incoming_total : Nat
  canonical_process_pct : ℚ
  canonical_client_pct : ℚ
  current_step_pct : ℚ
  health_known_pct : ℚ
  evidence_ids_pct : ℚ
  canonical_current_step_id_pct : ℚ
  role_metrics : RoleMetrics
deriving Repr

/-- The `hiring_funnel` block of the coverage report. -/
structure HiringFunnel where
  incoming_hiring_total : Nat
  incoming_non_hiring_total : Nat
  pct_hiring_among_total : ℚ
  pct_hiring_among_known_process : ℚ
  missing_canonical_process : Nat
  canonical_process_not_hiring : Nat
deriving Repr

/-- The `hiring_reconciliation` block of the coverage report. -/
structure HiringReconciliation where
  hiring_written_total : Nat
  match_counts : MatchCounts
  steps_list_pct : ℚ
  phase_known_pct : ℚ
  evidence_ids_pct : ℚ
deriving Repr

/-- The coverage report document. -/
structure CoverageReport where
  globalBlock : GlobalCoverage
  hiring_funnel : HiringFunnel
  hiring_reconciliation : HiringReconciliation
deriving Repr

/-- The reconciliation report document. -/
structure ReconciliationReport where
  workflows_written : Nat
  match_counts : MatchCounts
  updated_at : String
deriving Repr

/-- One `{"value", "count"}` row of the drift report. -/
structure DriftEntry where
  value : String
  count : Nat
deriving DecidableEq, Repr

/-- `top(counter, n)`: `Counter.most_common(n)` — sorted by count
descending, stable for equal counts (insertion order preserved). -/
def topCounter (counter : List (String × Nat)) (n : Nat := 10) : List DriftEntry :=
  ((counter.mergeSort fun a b => b.2 ≤ a.2).take n).map fun p => ⟨p.1, p.2⟩

/-- The mapping-drift report document. -/
structure DriftReport where
  candidate_client_raw : List DriftEntry
  candidate_role_raw : List DriftEntry
  candidate_process_raw : List DriftEntry
  raw_steps_unmatched : List DriftEntry
  canonical_step_match_failures : List DriftEntry
deriving Repr

/-- The four values returned by `reconcile_instances`. -/
structure ReconcileResult where
  workflows : List Workflow
  coverage_report : CoverageReport
  reconciliation_report : ReconciliationReport
  drift_report : DriftReport

/-- `reconcile_instances(instances, timeline_by_instance,
store_workflows, definition, cfg)`: restrict the store view, index it,
fold the per-instance loop, then assemble the three reports. -/
def reconcileInstances (ext : Foreign) (settings : Settings) (instances : List Instance)
    (timeline : Option (List (String × List EvidenceRec)))
    (storeWorkflows : List Workflow) (defn : WorkflowDefinition) : ReconcileResult :=
  let total := instances.length
  let final :=
    instances.foldl (processInstance ext settings defn timeline)
      (initialRState settings storeWorkflows)
  { workflows := final.workflows.toList
    coverage_report :=
      { globalBlock :=
          { incoming_total := total
            canonical_process_pct := coveragePct ext final.cov_process total
            canonical_client_pct := coveragePct ext final.cov_client total
            current_step_pct := coveragePct ext final.cov_step total
            health_known_pct := coveragePct ext final.cov_health total
            evidence_ids_pct := coveragePct ext final.cov_evidence total
            canonical_current_step_id_pct :=
              coveragePct ext final.canonical_step_present total
            role_metrics :=
              { role_detected_pct := coveragePct ext final.role_detected total
                role_canonical_strict_pct := coveragePct ext final.role_strict total
                role_other_pct := coveragePct ext final.role_other total
                role_missing_pct := coveragePct ext final.role_missing total } }
        hiring_funnel :=
          { incoming_hiring_total := final.hiring_total
            incoming_non_hiring_total := total - final.hiring_total
            pct_hiring_among_total := coveragePct ext final.hiring_total total
            pct_hiring_among_known_process :=
              coveragePct ext final.hiring_total final.cov_process
            missing_canonical_process := final.non_hiring_missing_process
            canonical_process_not_hiring := final.non_hiring_not_hiring }
        hiring_reconciliation :=
          { hiring_written_total := final.hiring_written_total
            match_counts := final.match_counts
            steps_list_pct :=
              coveragePct ext final.hiring_steps_populated final.hiring_written_total
            phase_known_pct :=
              coveragePct ext final.hiring_phase_known final.hiring_written_total
            evidence_ids_pct :=
              coveragePct ext final.hiring_evidence final.hiring_written_total } }
    reconciliation_report :=
      { workflows_written := final.hiring_written_total
        match_counts := final.match_counts
        updated_at := ext.nowIso }
    drift_report :=
      { candidate_client_raw := topCounter final.drift_client
        candidate_role_raw := topCounter final.drift_role
        candidate_process_raw := topCounter final.drift_process
        raw_steps_unmatched := topCounter final.drift_step
        canonical_step_match_failures := topCounter final.step_match_failures } }

/-! ### Concrete fixtures for closed statements -/

/-- A small compiled workflow definition (one process, two phases,
three steps), mirroring the shape produced by
`build_workflow_definition` on the repository's test document. -/
def testDefn : WorkflowDefinition :=
  { processes_by_id := [("recruiting", { name := some "Hiring" })]
    process_steps_in_order := [("recruiting", ["s1", "s2", "s3"])]
    step_to_phase := [(("recruiting", "s1"), "phase-1"), (("recruiting", "s2"), "phase-1"),
      (("recruiting", "s3"), "phase-2")]
    phase_to_steps := [(("recruiting", "phase-1"), ["s1", "s2"]),
      (("recruiting", "phase-2"), ["s3"])]
    phases_in_order := [("recruiting", ["phase-1", "phase-2"])]
    phase_info := [(("recruiting", "phase-1"), ⟨"phase-1", some "Phase 1"⟩),
      (("recruiting", "phase-2"), ⟨"phase-2", some "Phase 2"⟩)]
    step_info := [(("recruiting", "s1"), ⟨"s1", some "Step 1"⟩),
      (("recruiting", "s2"), ⟨"s2", some "Step 2"⟩),
      (("recruiting", "s3"), ⟨"s3", some "Step 3"⟩)] }

/-- A stored workflow whose process is not a hiring process. -/
def deliveryWf : Workflow :=
  { workflow_id := some "wf_del", process_id := some "delivery" }

/-- A two-step catalog process used in closed statements. -/
def abProcess : CatalogProcess :=
  { process_id := "p", display_name := "P", owner := none, steps := ["a", "b"] }

/-- A catalog holding only `abProcess` under id `"p"`. -/
def abCatalog : ProcessCatalog := ⟨[("p", abProcess)]⟩

/-- A three-step catalog process used in closed statements. -/
def abcProcess : CatalogProcess :=
  { process_id := "p", display_name := "P", owner := none, steps := ["a", "b", "c"] }

/-- A catalog holding only `abcProcess` under id `"p"`. -/
def abcCatalog : ProcessCatalog := ⟨[("p", abcProcess)]⟩

/-- An instance whose process resolved to `"p"` but whose free-text
step matches nothing in the catalog. -/
def unmatchedStepInst : Instance :=
  { canonical_process := some "p"
    state := some { status := some "in_progress", step := some "zzz" } }

/-- An instance whose free-text step is an exact step id and whose
status is the string `completed`. -/
def completedStatusInst : Instance :=
  { canonical_process := some "p"
    state := some { status := some "completed", step := some "b" } }

/-- An instance with no canonical process, a stale parsable timestamp
and a non-blocked status. -/
def staleNoProcessInst : Instance :=
  { canonical_process := none
    state := some
      { status := some "in_progress"
        last_updated_at := some "2026-01-01T00:00:00" } }

/-- The epoch value of `staleNoProcessInst`'s timestamp. -/
def staleEpoch : ℚ := ((1767225600 : ℤ) : ℚ)

/-- A `now` 120 days after `staleNoProcessInst`'s timestamp. -/
def staleNow : ℚ := staleEpoch + 120 * 86400

/-- A clients catalog with two clients that share one canonical name. -/
def twoAcme : ClientsCatalog := ⟨[⟨"Acme", []⟩, ⟨"Acme", []⟩]⟩

/-- A clients catalog with two distinct clients. -/
def acmeGlobex : ClientsCatalog := ⟨[⟨"Acme", []⟩, ⟨"Globex", []⟩]⟩

/-- The catalog process of the repository's step-matching tests: two
steps and one alias per step. -/
def recruitingSpec : CatalogProcess :=
  { process_id := "recruiting"
    display_name := "Hiring"
    owner := none
    steps := ["role-details", "interview-scheduling"]
    step_aliases := [("role-details", ["Role Details"]),
      ("interview-scheduling", ["Interview Scheduling"])] }

/-- The process catalog of the repository's step-matching tests. -/
def recruitingCatalog : ProcessCatalog := ⟨[("recruiting", recruitingSpec)]⟩

/-- A flat spec with a single step, valid under
`_compile_from_process_catalog`. -/
def okFlatSpec : FlatSpec := { steps := ["a"] }

/-- What `_compile_from_process_catalog` produces for `okFlatSpec`
under the id `hiring`. -/
def hiringCompiled : CatalogProcess :=
  { process_id := "hiring", display_name := "hiring", owner := none, steps := ["a"] }

/-- What `_compile_from_process_catalog` produces for `okFlatSpec`
under the id `other`. -/
def otherCompiled : CatalogProcess :=
  { process_id := "other", display_name := "other", owner := none, steps := ["a"] }

/-- An instance whose canonical process lies outside the default
hiring scope, carrying raw candidate fields. -/
def outOfScopeInst : Instance :=
  { instance_key := some "thread:2"
    candidate_client_raw := some "Globex"
    candidate_role_raw := some "PM"
    candidate_process_raw := some "Delivery"
    canonical_client := some "Globex"
    canonical_role := some "PM"
    canonical_process := some "delivery"
    state := some { status := some "in_progress", step := some "Step 1" }
    health := some "on_track" }

/-- Invariant of the rule-3 accumulator of `match_step`: every stored
score is the containment ratio of some catalog text (the step id itself
or one of its aliases) that appears inside the normalized raw text, and
every candidate has a stored score. -/
def FuzzyInv (stepN : String) (steps : List String)
    (aliases : List (String × List String)) (acc : FuzzyAcc) : Prop :=
  (∀ sid v, alookup acc.scores sid = some v →
    ∃ t, ((t = sid ∧ sid ∈ steps) ∨ ∃ pr ∈ aliases, pr.1 = sid ∧ t ∈ pr.2) ∧
      pyIn (normalizeText t) stepN = true ∧
      v = ((normalizeText t).data.length : ℚ) / (max stepN.data.length 1 : ℚ)) ∧
  (∀ sid ∈ acc.candidates, (alookup acc.scores sid).isSome = true)

/-! ## Supporting lemmas -/

theorem mergeGo_cons (merged : List String) (maxIds : Nat) (mid : String)
    (rest : List String) :
    mergeGo merged maxIds (mid :: rest) =
      if mid = "" || merged.contains mid then mergeGo merged maxIds rest
      else if maxIds ≤ (merged ++ [mid]).length then merged ++ [mid]
      else mergeGo (merged ++ [mid]) maxIds rest := rfl

theorem mergeGo_extends (maxIds : Nat) :
    ∀ (l merged : List String), merged <+: mergeGo merged maxIds l := by
  intro l
  induction l with
  | nil => intro merged; exact List.prefix_refl _
  | cons mid rest ih =>
    intro merged
    unfold mergeGo
    split
    · exact ih merged
    · split
      · exact List.prefix_append _ _
      · exact List.IsPrefix.trans (List.prefix_append _ _) (ih (merged ++ [mid]))

theorem mergeGo_nodup (maxIds : Nat) :
    ∀ (l merged : List String), merged.Nodup → (mergeGo merged maxIds l).Nodup := by
  intro l
  induction l with
  | nil => intro merged h; exact h
  | cons mid rest ih =>
    intro merged h
    unfold mergeGo
    split
    · exact ih merged h
    · rename_i hcond
      simp only [Bool.or_eq_true, decide_eq_true_eq, not_or] at hcond
      have hmem : mid ∉ merged := by
        intro hm; exact hcond.2 (by simpa using hm)
      have h' : (merged ++ [mid]).Nodup := by
        simp [List.nodup_append, h, hmem]
      split
      · exact h'
      · exact ih (merged ++ [mid]) h'

theorem mergeGo_no_empty (maxIds : Nat) :
    ∀ (l merged : List String), (∀ x ∈ merged, x ≠ "") →
      ∀ x ∈ mergeGo merged maxIds l, x ≠ "" := by
  intro l
  induction l with
  | nil => intro merged h; exact h
  | cons mid rest ih =>
    intro merged h
    unfold mergeGo
    split
    · exact ih merged h
    · rename_i hcond
      simp only [Bool.or_eq_true, decide_eq_true_eq, not_or] at hcond
      have h' : ∀ x ∈ merged ++ [mid], x ≠ "" := by
        intro x hx
        rcases List.mem_append.mp hx with hx | hx
        · exact h x hx
        · simp only [List.mem_singleton] at hx; subst hx; exact hcond.1
      split
      · exact h'
      · exact ih (merged ++ [mid]) h'

theorem mergeGo_cap (maxIds : Nat) :
    ∀ (l merged : List String), merged.length < max maxIds 1 →
      (mergeGo merged maxIds l).length ≤ max maxIds 1 := by
  intro l
  induction l with
  | nil => intro merged h; exact Nat.le_of_lt h
  | cons mid rest ih =>
    intro merged h
    unfold mergeGo
    split
    · exact ih merged h
    · split
      · simp only [List.length_append, List.length_singleton]
        omega
      · rename_i hbreak
        apply ih
        have h1 : (merged ++ [mid]).length < maxIds := Nat.lt_of_not_le hbreak
        exact Nat.lt_of_lt_of_le h1 (Nat.le_max_left _ _)

theorem mergeGo_complete (maxIds : Nat) :
    ∀ (l merged : List String), (mergeGo merged maxIds l).length < max maxIds 1 →
      ∀ x ∈ l, x ≠ "" → x ∈ mergeGo merged maxIds l := by
  intro l
  induction l with
  | nil => intro merged _ x hx; exact absurd hx (List.not_mem_nil x)
  | cons mid rest ih =>
    intro merged hlen x hx hne
    unfold mergeGo at hlen ⊢
    split at hlen
    · rename_i hcond
      rw [if_pos hcond]
      rcases List.mem_cons.mp hx with hx | hx
      · subst hx
        simp only [Bool.or_eq_true, decide_eq_true_eq] at hcond
        rcases hcond with hc | hc
        · exact absurd hc hne
        · exact (List.IsPrefix.subset (mergeGo_extends maxIds rest merged)) (by simpa using hc)
      · exact ih merged hlen x hx hne
    · rename_i hcond
      rw [if_neg hcond]
      split at hlen
      · rename_i hbreak
        exfalso
        have h1 : maxIds ≤ (merged ++ [mid]).length := hbreak
        have h2 : (merged ++ [mid]).length < max maxIds 1 := hlen
        have h3 := Nat.lt_of_le_of_lt h1 h2
        have hm0 : maxIds = 0 := by omega
        subst hm0
        simp only [List.length_append, List.length_singleton] at h2
        omega
      · rename_i hbreak
        rw [if_neg hbreak]
        rcases List.mem_cons.mp hx with hx | hx
        · subst hx
          exact (List.IsPrefix.subset (mergeGo_extends maxIds rest (merged ++ [x])))
            (by simp)
        · exact ih (merged ++ [mid]) hlen x hx hne

theorem mergeGo_skip (maxIds : Nat) :
    ∀ (l merged : List String), (∀ x ∈ l, x = "" ∨ x ∈ merged) →
      mergeGo merged maxIds l = merged := by
  intro l
  induction l with
  | nil => intro merged _; rfl
  | cons mid rest ih =>
    intro merged h
    unfold mergeGo
    split
    · exact ih merged fun x hx => h x (List.mem_cons_of_mem _ hx)
    · rename_i hcond
      simp only [Bool.or_eq_true, decide_eq_true_eq, not_or] at hcond
      exfalso
      rcases h mid (List.mem_cons_self _ _) with hm | hm
      · exact hcond.1 hm
      · exact hcond.2 (by simpa using hm)

theorem mergeGo_consume_nobreak (maxIds : Nat) :
    ∀ (suf pre rest : List String), (pre ++ suf).Nodup →
      (∀ x ∈ pre ++ suf, x ≠ "") → (pre ++ suf).length < maxIds →
      mergeGo pre maxIds (suf ++ rest) = mergeGo (pre ++ suf) maxIds rest := by
  intro suf
  induction suf with
  | nil => intro pre rest _ _ _; simp
  | cons x suf' ih =>
    intro pre rest hnodup hne hlen
    have hxne : x ≠ "" := hne x (by simp)
    have hxpre : x ∉ pre := by
      intro hm
      have hd := List.disjoint_of_nodup_append hnodup
      exact hd hm (by simp)
    have hstep : mergeGo pre maxIds ((x :: suf') ++ rest) =
        mergeGo pre maxIds (x :: (suf' ++ rest)) := by simp
    rw [hstep, mergeGo_cons]
    rw [if_neg (by simp [hxne, hxpre])]
    rw [if_neg (by
      intro hbreak
      rw [List.length_append, List.length_singleton] at hbreak
      rw [List.length_append, List.length_cons] at hlen
      omega)]
    have heq : pre ++ [x] ++ suf' = pre ++ x :: suf' := by simp
    have h1 := ih (pre ++ [x]) rest (by rw [heq]; exact hnodup)
      (by rw [heq]; exact hne) (by rw [heq]; exact hlen)
    rw [h1, heq]

theorem mergeGo_consume_break (maxIds : Nat) :
    ∀ (suf pre rest : List String), (pre ++ suf).Nodup →
      (∀ x ∈ pre ++ suf, x ≠ "") → suf ≠ [] →
      (pre ++ suf).length = max maxIds 1 →
      mergeGo pre maxIds (suf ++ rest) = pre ++ suf := by
  intro suf
  induction suf with
  | nil => intro pre rest _ _ h _; exact absurd rfl h
  | cons x suf' ih =>
    intro pre rest hnodup hne _ hlen
    have hxne : x ≠ "" := hne x (by simp)
    have hxpre : x ∉ pre := by
      intro hm
      have hd := List.disjoint_of_nodup_append hnodup
      exact hd hm (by simp)
    have hstep : mergeGo pre maxIds ((x :: suf') ++ rest) =
        mergeGo pre maxIds (x :: (suf' ++ rest)) := by simp
    rw [hstep, mergeGo_cons]
    rw [if_neg (by simp [hxne, hxpre])]
    rcases List.eq_nil_or_concat suf' with hnil | hcc
    · subst hnil
      rw [if_pos (by
        have h2 : (pre ++ [x]).length = max maxIds 1 := by simpa using hlen
        rw [h2]
        exact Nat.le_max_left _ _)]
    · have hsuf : suf' ≠ [] := by
        rcases hcc with ⟨a, b, hab⟩; subst hab; simp
      have hpos := List.length_pos.mpr hsuf
      rw [if_neg (by
        intro hbreak
        rw [List.length_append, List.length_singleton] at hbreak
        rw [List.length_append, List.length_cons] at hlen
        rcases Nat.le_total maxIds 1 with hm | hm
        · rw [Nat.max_eq_right hm] at hlen
          omega
        · rw [Nat.max_eq_left hm] at hlen
          omega)]
      have heq : pre ++ [x] ++ suf' = pre ++ x :: suf' := by simp
      have h1 := ih (pre ++ [x]) rest (by rw [heq]; exact hnodup)
        (by rw [heq]; exact hne) hsuf (by rw [heq]; exact hlen)
      rw [h1, heq]

theorem mergeEvidenceIds_nodup (existing incoming : List String) (maxIds : Nat) :
    (mergeEvidenceIds existing incoming maxIds).Nodup :=
  mergeGo_nodup maxIds (existing ++ incoming) [] List.nodup_nil

theorem mergeEvidenceIds_no_empty (existing incoming : List String) (maxIds : Nat) :
    ∀ x ∈ mergeEvidenceIds existing incoming maxIds, x ≠ "" :=
  mergeGo_no_empty maxIds (existing ++ incoming) [] (by intro x hx; cases hx)

theorem mergeEvidenceIds_def (existing incoming : List String) (maxIds : Nat) :
    mergeEvidenceIds existing incoming maxIds =
      mergeGo [] maxIds (existing ++ incoming) := rfl

theorem mergeEvidenceIds_idem (existing incoming : List String) (maxIds : Nat) :
    mergeEvidenceIds (mergeEvidenceIds existing incoming maxIds) incoming maxIds =
      mergeEvidenceIds existing incoming maxIds := by
  have hnodup : (mergeEvidenceIds existing incoming maxIds).Nodup :=
    mergeEvidenceIds_nodup existing incoming maxIds
  have hne : ∀ x ∈ mergeEvidenceIds existing incoming maxIds, x ≠ "" :=
    mergeEvidenceIds_no_empty existing incoming maxIds
  have hcap : (mergeEvidenceIds existing incoming maxIds).length ≤ max maxIds 1 := by
    rw [mergeEvidenceIds_def]
    exact mergeGo_cap maxIds (existing ++ incoming) [] (by simp)
  rw [mergeEvidenceIds_def (mergeEvidenceIds existing incoming maxIds) incoming maxIds]
  rcases Nat.lt_or_ge (mergeEvidenceIds existing incoming maxIds).length (max maxIds 1)
    with hlt | hge
  · have hcomplete : ∀ x ∈ existing ++ incoming, x ≠ "" →
        x ∈ mergeEvidenceIds existing incoming maxIds := by
      rw [mergeEvidenceIds_def]
      apply mergeGo_complete maxIds (existing ++ incoming) []
      rw [mergeEvidenceIds_def] at hlt
      exact hlt
    have hskip : ∀ x ∈ incoming, x = "" ∨ x ∈ mergeEvidenceIds existing incoming maxIds := by
      intro x hx
      by_cases hxe : x = ""
      · exact Or.inl hxe
      · exact Or.inr (hcomplete x (List.mem_append.mpr (Or.inr hx)) hxe)
    rcases Nat.eq_zero_or_pos maxIds with hm0 | hmpos
    · subst hm0
      have hM0 : mergeEvidenceIds existing incoming 0 = [] := by
        have h1 : (mergeEvidenceIds existing incoming 0).length < 1 := by
          simpa using hlt
        exact List.eq_nil_of_length_eq_zero (by omega)
      rw [hM0]
      simp only [List.nil_append]
      rw [← hM0]
      exact mergeGo_skip 0 incoming _ hskip
    · have hmax : max maxIds 1 = maxIds := Nat.max_eq_left hmpos
      have h1 := mergeGo_consume_nobreak maxIds (mergeEvidenceIds existing incoming maxIds)
        [] incoming (by simpa using hnodup) (by simpa using hne)
        (by simpa [hmax] using hlt)
      simp only [List.nil_append] at h1
      rw [h1]
      exact mergeGo_skip maxIds incoming _ hskip
  · have hlen : (mergeEvidenceIds existing incoming maxIds).length = max maxIds 1 :=
      Nat.le_antisymm hcap hge
    have hMne : mergeEvidenceIds existing incoming maxIds ≠ [] := by
      intro h0
      rw [h0] at hlen
      simp at hlen
      omega
    have h1 := mergeGo_consume_break maxIds (mergeEvidenceIds existing incoming maxIds)
      [] incoming (by simpa using hnodup) (by simpa using hne) hMne (by simpa using hlen)
    simpa using h1

theorem chooseLatestTs_self (fromIso : String → Option ℚ) (i : Option String)
    (hi : optTruthy i = true) : chooseLatestTs fromIso i i = i := by
  unfold chooseLatestTs
  rw [if_neg (by simp [hi]), if_neg (by simp [hi])]
  rcases h : parseIsoRecon fromIso i with _ | v
  · simp
  · simp

theorem chooseLatestTs_idem (fromIso : String → Option ℚ)
    (existing incoming : Option String) :
    chooseLatestTs fromIso (chooseLatestTs fromIso existing incoming) incoming =
      chooseLatestTs fromIso existing incoming := by
  by_cases hi : optTruthy incoming
  · by_cases he : optTruthy existing
    · rcases hex : parseIsoRecon fromIso existing with _ | ex
      · have h1 : chooseLatestTs fromIso existing incoming = incoming := by
          unfold chooseLatestTs
          rw [if_neg (by simp [hi]), if_neg (by simp [he])]
          simp [hex]
        rw [h1]
        exact chooseLatestTs_self fromIso incoming hi
      · rcases hinc : parseIsoRecon fromIso incoming with _ | inc
        · have h1 : chooseLatestTs fromIso existing incoming = incoming := by
            unfold chooseLatestTs
            rw [if_neg (by simp [hi]), if_neg (by simp [he])]
            simp [hex, hinc]
          rw [h1]
          exact chooseLatestTs_self fromIso incoming hi
        · by_cases hle : ex ≤ inc
          · have h1 : chooseLatestTs fromIso existing incoming = incoming := by
              unfold chooseLatestTs
              rw [if_neg (by simp [hi]), if_neg (by simp [he])]
              simp [hex, hinc, hle]
            rw [h1]
            exact chooseLatestTs_self fromIso incoming hi
          · have h1 : chooseLatestTs fromIso existing incoming = existing := by
              unfold chooseLatestTs
              rw [if_neg (by simp [hi]), if_neg (by simp [he])]
              simp [hex, hinc, hle]
            rw [h1]
            exact h1
    · have h1 : chooseLatestTs fromIso existing incoming = incoming := by
        unfold chooseLatestTs
        rw [if_neg (by simp [hi]), if_pos (by simp [he])]
      rw [h1]
      exact chooseLatestTs_self fromIso incoming hi
  · have h1 : chooseLatestTs fromIso existing incoming = existing := by
      unfold chooseLatestTs
      rw [if_pos (by simp [hi])]
    rw [h1, h1]

theorem find_map_update_ne {α : Type} (t : List (String × α)) (k x : String) (v : α)
    (hx : x ≠ k) :
    (t.map fun q => if q.1 == k then (k, v) else q).find? (fun q => q.1 == x) =
      t.find? fun q => q.1 == x := by
  induction t with
  | nil => rfl
  | cons q u ih =>
    by_cases hq : q.1 = k
    · simp only [List.map_cons, hq, beq_self_eq_true, if_true, List.find?_cons]
      have h1 : (((k, v) : String × α).1 == x) = false := by simp [Ne.symm hx]
      have h2 : (q.1 == x) = false := by rw [hq]; simp [Ne.symm hx]
      simp only [h1, h2, cond_false]
      exact ih
    · have h1 : (q.1 == k) = false := by simp [hq]
      simp only [List.map_cons, h1, Bool.false_eq_true, if_false, List.find?_cons]
      by_cases hqx : q.1 = x
      · simp [hqx]
      · have h2 : (q.1 == x) = false := by simp [hqx]
        simp only [h2, cond_false]
        exact ih

theorem find_map_update_self {α : Type} (t : List (String × α)) (k : String) (v : α)
    (hfind : (t.find? fun q => q.1 == k).isSome) :
    (t.map fun q => if q.1 == k then (k, v) else q).find? (fun q => q.1 == k) =
      some (k, v) := by
  induction t with
  | nil => simp at hfind
  | cons q u ih =>
    by_cases hq : q.1 = k
    · simp [List.map_cons, hq, List.find?_cons]
    · have h1 : (q.1 == k) = false := by simp [hq]
      simp only [List.map_cons, h1, Bool.false_eq_true, if_false, List.find?_cons,
        cond_false]
      apply ih
      simpa [List.find?_cons, h1] using hfind

theorem alookup_aset {α : Type} (l : List (String × α)) (k x : String) (v : α) :
    alookup (aset l k v) x = if x = k then some v else alookup l x := by
  unfold aset alookup
  by_cases hfind : (l.find? fun q => q.1 == k).isSome
  · rw [if_pos hfind]
    by_cases hx : x = k
    · subst hx
      rw [if_pos rfl, find_map_update_self l x v hfind]
      rfl
    · rw [if_neg hx, find_map_update_ne l k x v hx]
  · rw [if_neg hfind, List.find?_append]
    by_cases hx : x = k
    · subst hx
      have hnone : (l.find? fun q => q.1 == x) = none := by
        rcases h : l.find? fun q => q.1 == x with _ | w
        · exact h
        · exact absurd (by simp [h]) hfind
      simp [hnone]
    · have hone : (([(k, v)] : List (String × α)).find? fun q => q.1 == x) = none := by
        simp [List.find?_cons, Ne.symm hx]
      rw [hone, if_neg hx]
      simp

theorem alookup_nil {α : Type} (x : String) : alookup ([] : List (String × α)) x = none := rfl

theorem alookup_foldl_unknown (steps : List String) :
    ∀ (init : List (String × String)) (x : String),
      alookup (steps.foldl (fun ss s => aset ss s "unknown") init) x =
        if x ∈ steps then some "unknown" else alookup init x := by
  induction steps with
  | nil => intro init x; simp
  | cons s t ih =>
    intro init x
    simp only [List.foldl_cons]
    rw [ih]
    by_cases hx : x ∈ t
    · simp [hx]
    · rw [if_neg hx, alookup_aset]
      by_cases hxs : x = s
      · simp [hxs]
      · simp [hxs, hx]

theorem mem_uniqueGo : ∀ (l seen : List String) (x : String),
    x ∈ uniqueGo seen l ↔ x ∈ l ∧ x ∉ seen := by
  intro l
  induction l with
  | nil => intro seen x; simp [uniqueGo]
  | cons v rest ih =>
    intro seen x
    unfold uniqueGo
    by_cases hv : v ∈ seen
    · rw [if_pos hv, ih]
      constructor
      · rintro ⟨hx, hs⟩
        exact ⟨List.mem_cons_of_mem _ hx, hs⟩
      · rintro ⟨hx, hs⟩
        rcases List.mem_cons.mp hx with hx | hx
        · subst hx; exact absurd hv hs
        · exact ⟨hx, hs⟩
    · rw [if_neg hv]
      constructor
      · intro hx
        rcases List.mem_cons.mp hx with hx | hx
        · subst hx; exact ⟨List.mem_cons_self _ _, hv⟩
        · rcases (ih (v :: seen) x).mp hx with ⟨h1, h2⟩
          refine ⟨List.mem_cons_of_mem _ h1, fun hs => h2 (List.mem_cons_of_mem _ hs)⟩
      · rintro ⟨hx, hs⟩
        rcases List.mem_cons.mp hx with hx | hx
        · subst hx; exact List.mem_cons_self _ _
        · by_cases hxv : x = v
          · subst hxv; exact List.mem_cons_self _ _
          · exact List.mem_cons_of_mem _ ((ih (v :: seen) x).mpr
              ⟨hx, fun h => by
                rcases List.mem_cons.mp h with h | h
                · exact hxv h
                · exact hs h⟩)

theorem mem_uniqueList (l : List String) (x : String) : x ∈ uniqueList l ↔ x ∈ l := by
  unfold uniqueList
  rw [mem_uniqueGo]
  simp

theorem uniqueList_singleton (l : List String) (only : String)
    (h : uniqueList l = [only]) : ∀ x ∈ l, x = only := by
  intro x hx
  have := (mem_uniqueList l x).mpr hx
  rw [h] at this
  simpa using this

theorem fuzzyStepFun_foldl_candidates (stepN : String) :
    ∀ (steps : List String) (acc : FuzzyAcc),
      (steps.foldl (fuzzyStepFun stepN) acc).candidates =
        acc.candidates ++ steps.filter fun s => pyIn (normalizeText s) stepN := by
  intro steps
  induction steps with
  | nil => intro acc; simp
  | cons s t ih =>
    intro acc
    simp only [List.foldl_cons]
    rw [ih]
    by_cases h : pyIn (normalizeText s) stepN
    · simp [fuzzyStepFun, h, List.filter_cons]
    · simp [fuzzyStepFun, h, List.filter_cons]

theorem fuzzyStepFun_foldl_inv (stepN : String) (allSteps : List String)
    (aliases : List (String × List String)) :
    ∀ (steps : List String) (acc : FuzzyAcc), (∀ s ∈ steps, s ∈ allSteps) →
      FuzzyInv stepN allSteps aliases acc →
      FuzzyInv stepN allSteps aliases (steps.foldl (fuzzyStepFun stepN) acc) := by
  intro steps
  induction steps with
  | nil => intro acc _ hinv; exact hinv
  | cons s t ih =>
    intro acc hsub hinv
    simp only [List.foldl_cons]
    apply ih _ (fun x hx => hsub x (List.mem_cons_of_mem _ hx))
    by_cases h : pyIn (normalizeText s) stepN
    · constructor
      · intro sid v hv
        simp only [fuzzyStepFun, h, if_pos] at hv
        rw [alookup_aset] at hv
        by_cases hsid : sid = s
        · subst hsid
          rw [if_pos rfl] at hv
          refine ⟨sid, Or.inl ⟨rfl, hsub sid (List.mem_cons_self _ _)⟩, h, ?_⟩
          injection hv with hv
          rw [← hv]
        · rw [if_neg hsid] at hv
          exact hinv.1 sid v hv
      · intro sid hsid
        simp only [fuzzyStepFun, h, if_pos] at hsid ⊢
        rw [alookup_aset]
        by_cases hss : sid = s
        · rw [if_pos hss]; rfl
        · rw [if_neg hss]
          rcases List.mem_append.mp hsid with hm | hm
          · exact hinv.2 sid hm
          · simp only [List.mem_singleton] at hm
            exact absurd hm hss
    · simpa [fuzzyStepFun, h] using hinv

theorem fuzzyAliasFun_foldl_candidates (stepN pid : String) :
    ∀ (als : List String) (acc : FuzzyAcc),
      (als.foldl (fuzzyAliasFun stepN pid) acc).candidates =
        acc.candidates ++
          ((als.filter fun a => pyIn (normalizeText a) stepN).map fun _ => pid) := by
  intro als
  induction als with
  | nil => intro acc; simp
  | cons a t ih =>
    intro acc
    simp only [List.foldl_cons]
    rw [ih]
    by_cases h : pyIn (normalizeText a) stepN
    · simp [fuzzyAliasFun, h, List.filter_cons]
    · simp [fuzzyAliasFun, h, List.filter_cons]

theorem ratio_nonneg (t stepN : String) :
    (0 : ℚ) ≤ ((normalizeText t).data.length : ℚ) / (max stepN.data.length 1 : ℚ) := by
  apply div_nonneg
  · exact Nat.cast_nonneg _
  · positivity

theorem fuzzyAliasFun_foldl_inv (stepN : String) (allSteps : List String)
    (aliases : List (String × List String)) (pid : String) (alsFull : List String)
    (hpr : (pid, alsFull) ∈ aliases) :
    ∀ (als : List String) (acc : FuzzyAcc), (∀ a ∈ als, a ∈ alsFull) →
      FuzzyInv stepN allSteps aliases acc →
      FuzzyInv stepN allSteps aliases (als.foldl (fuzzyAliasFun stepN pid) acc) := by
  intro als
  induction als with
  | nil => intro acc _ hinv; exact hinv
  | cons a t ih =>
    intro acc hsub hinv
    simp only [List.foldl_cons]
    apply ih _ (fun x hx => hsub x (List.mem_cons_of_mem _ hx))
    by_cases h : pyIn (normalizeText a) stepN
    · constructor
      · intro sid v hv
        simp only [fuzzyAliasFun, h, if_pos] at hv
        rw [alookup_aset] at hv
        by_cases hsid : sid = pid
        · subst hsid
          rw [if_pos rfl] at hv
          injection hv with hv
          rcases hold : alookup acc.scores sid with _ | v0
          · rw [hold] at hv
            simp only [Option.getD_none] at hv
            refine ⟨a, Or.inr ⟨(sid, alsFull), hpr, rfl, hsub a (List.mem_cons_self _ _)⟩,
              h, ?_⟩
            rw [← hv, max_eq_right (ratio_nonneg a stepN)]
          · rw [hold] at hv
            simp only [Option.getD_some] at hv
            rcases max_choice v0
              (((normalizeText a).data.length : ℚ) / (max stepN.data.length 1 : ℚ))
              with hmax | hmax
            · rcases hinv.1 sid v0 hold with ⟨t0, ht0, hin0, hval0⟩
              exact ⟨t0, ht0, hin0, by rw [← hv, hmax, hval0]⟩
            · refine ⟨a, Or.inr ⟨(sid, alsFull), hpr, rfl,
                hsub a (List.mem_cons_self _ _)⟩, h, by rw [← hv, hmax]⟩
        · rw [if_neg hsid] at hv
          exact hinv.1 sid v hv
      · intro sid hsid
        simp only [fuzzyAliasFun, h, if_pos] at hsid ⊢
        rw [alookup_aset]
        by_cases hss : sid = pid
        · rw [if_pos hss]; rfl
        · rw [if_neg hss]
          rcases List.mem_append.mp hsid with hm | hm
          · exact hinv.2 sid hm
          · simp only [List.mem_singleton] at hm
            exact absurd hm hss
    · simpa [fuzzyAliasFun, h] using hinv

theorem fuzzyAliasPass_candidates (stepN : String) :
    ∀ (aliases : List (String × List String)) (acc : FuzzyAcc),
      (fuzzyAliasPass stepN acc aliases).candidates =
        acc.candidates ++ aliases.flatMap fun pr =>
          (pr.2.filter fun a => pyIn (normalizeText a) stepN).map fun _ => pr.1 := by
  intro aliases
  induction aliases with
  | nil => intro acc; simp [fuzzyAliasPass]
  | cons pr rest ih =>
    intro acc
    unfold fuzzyAliasPass
    simp only [List.foldl_cons]
    have h1 := ih (pr.2.foldl (fuzzyAliasFun stepN pr.1) acc)
    unfold fuzzyAliasPass at h1
    rw [h1, fuzzyAliasFun_foldl_candidates]
    simp

theorem fuzzyAliasPass_inv (stepN : String) (allSteps : List String)
    (aliases0 : List (String × List String)) :
    ∀ (aliases : List (String × List String)) (acc : FuzzyAcc),
      (∀ pr ∈ aliases, pr ∈ aliases0) →
      FuzzyInv stepN allSteps aliases0 acc →
      FuzzyInv stepN allSteps aliases0 (fuzzyAliasPass stepN acc aliases) := by
  intro aliases
  induction aliases with
  | nil => intro acc _ hinv; exact hinv
  | cons pr rest ih =>
    intro acc hsub hinv
    unfold fuzzyAliasPass
    simp only [List.foldl_cons]
    have h0 : FuzzyInv stepN allSteps aliases0
        (pr.2.foldl (fuzzyAliasFun stepN pr.1) acc) := by
      apply fuzzyAliasFun_foldl_inv stepN allSteps aliases0 pr.1 pr.2
        (by simpa using hsub pr (List.mem_cons_self _ _)) pr.2 acc (fun a ha => ha) hinv
    have h2 := ih _ (fun q hq => hsub q (List.mem_cons_of_mem _ hq)) h0
    unfold fuzzyAliasPass at h2
    exact h2

theorem matchStepDetailed_open (raw proc : String) (catalog : ProcessCatalog)
    (spec : CatalogProcess) (hraw : raw ≠ "") (hproc : proc ≠ "")
    (hspec : alookup catalog.processes proc = some spec)
    (hstepn : normalizeText raw ≠ "") :
    matchStepDetailed (some raw) (some proc) catalog =
      match spec.steps.find? fun s => normText raw == normText s with
      | some s => ⟨some s, "exact", 1, none⟩
      | none =>
        match spec.step_aliases.find? fun p =>
            p.2.any fun a => normalizeText raw == normalizeText a with
        | some p =>
          ⟨some p.1, "alias", 1, p.2.find? fun a => normalizeText raw == normalizeText a⟩
        | none =>
          match uniqueList (fuzzyAliasPass (normalizeText raw)
              (fuzzyStepsPass (normalizeText raw) spec.steps)
              spec.step_aliases).candidates with
          | [stepId] =>
            ⟨some stepId, "fuzzy",
              max (1 / 100) (min 1 ((alookup (fuzzyAliasPass (normalizeText raw)
                (fuzzyStepsPass (normalizeText raw) spec.steps)
                spec.step_aliases).scores stepId).getD (1 / 2))),
              alookup (fuzzyAliasPass (normalizeText raw)
                (fuzzyStepsPass (normalizeText raw) spec.steps)
                spec.step_aliases).aliasOf stepId⟩
          | _ => noMatchResult := by
  unfold matchStepDetailed
  rw [if_neg (by simp [optTruthy, hraw, hproc])]
  simp only [Option.getD_some, hspec]
  rw [if_neg hstepn]

/-- C6: `match_step` follows the ladder exact > alias > fuzzy; fuzzy
containment only fires with the catalog text inside the raw text, its
score is the normalized catalog-text length over the normalized raw
length clamped to `[0.01, 1]`, and two distinct step ids with
containment candidates abstain to no match. -/
theorem match_step_priority_and_fuzzy (raw proc : String) (catalog : ProcessCatalog)
    (spec : CatalogProcess) (hraw : raw ≠ "") (hproc : proc ≠ "")
    (hspec : alookup catalog.processes proc = some spec)
    (hstepn : normalizeText raw ≠ "") :
    ((∃ s ∈ spec.steps, normText raw = normText s) →
      (matchStepDetailed (some raw) (some proc) catalog).match_type = "exact" ∧
      (matchStepDetailed (some raw) (some proc) catalog).score = 1) ∧
    ((∀ s ∈ spec.steps, normText raw ≠ normText s) →
      (∃ pr ∈ spec.step_aliases, ∃ a ∈ pr.2, normalizeText raw = normalizeText a) →
      (matchStepDetailed (some raw) (some proc) catalog).match_type = "alias" ∧
      (matchStepDetailed (some raw) (some proc) catalog).score = 1) ∧
    ((matchStepDetailed (some raw) (some proc) catalog).match_type = "fuzzy" →
      ∃ sid t, (matchStepDetailed (some raw) (some proc) catalog).step_id = some sid ∧
        ((t = sid ∧ sid ∈ spec.steps) ∨
          ∃ pr ∈ spec.step_aliases, pr.1 = sid ∧ t ∈ pr.2) ∧
        pyIn (normalizeText t) (normalizeText raw) = true ∧
        (matchStepDetailed (some raw) (some proc) catalog).score =
          max (1 / 100) (min 1 (((normalizeText t).data.length : ℚ) /
            (max (normalizeText raw).data.length 1 : ℚ)))) ∧
    (∀ s1 s2, s1 ≠ s2 →
      ((s1 ∈ spec.steps ∧ pyIn (normalizeText s1) (normalizeText raw) = true) ∨
        (∃ pr ∈ spec.step_aliases, pr.1 = s1 ∧ ∃ a ∈ pr.2,
          pyIn (normalizeText a) (normalizeText raw) = true)) →
      ((s2 ∈ spec.steps ∧ pyIn (normalizeText s2) (normalizeText raw) = true) ∨
        (∃ pr ∈ spec.step_aliases, pr.1 = s2 ∧ ∃ a ∈ pr.2,
          pyIn (normalizeText a) (normalizeText raw) = true)) →
      (∀ s ∈ spec.steps, normText raw ≠ normText s) →
      (∀ pr ∈ spec.step_aliases, ∀ a ∈ pr.2, normalizeText raw ≠ normalizeText a) →
      matchStepDetailed (some raw) (some proc) catalog = noMatchResult) := by
  have hopen := matchStepDetailed_open raw proc catalog spec hraw hproc hspec hstepn
  have hmemcand : ∀ s,
      ((s ∈ spec.steps ∧ pyIn (normalizeText s) (normalizeText raw) = true) ∨
        (∃ pr ∈ spec.step_aliases, pr.1 = s ∧ ∃ a ∈ pr.2,
          pyIn (normalizeText a) (normalizeText raw) = true)) →
      s ∈ (fuzzyAliasPass (normalizeText raw)
        (fuzzyStepsPass (normalizeText raw) spec.steps) spec.step_aliases).candidates := by
    intro s hs
    rw [fuzzyAliasPass_candidates]
    unfold fuzzyStepsPass
    rw [fuzzyStepFun_foldl_candidates]
    rcases hs with ⟨hmem, hin⟩ | ⟨pr, hpr, hfst, a, ha, hin⟩
    · apply List.mem_append.mpr
      apply Or.inl
      apply List.mem_append.mpr
      apply Or.inr
      exact List.mem_filter.mpr ⟨hmem, hin⟩
    · apply List.mem_append.mpr
      apply Or.inr
      apply List.mem_flatMap.mpr
      refine ⟨pr, hpr, ?_⟩
      apply List.mem_map.mpr
      exact ⟨a, List.mem_filter.mpr ⟨ha, hin⟩, hfst⟩
  refine ⟨?_, ?_, ?_, ?_⟩
  · rintro ⟨s, hs, heq⟩
    have hsome : (spec.steps.find? fun x => normText raw == normText x).isSome := by
      apply List.find?_isSome.mpr
      exact ⟨s, hs, by simp [heq]⟩
    rcases hf : spec.steps.find? fun x => normText raw == normText x with _ | s0
    · rw [hf] at hsome; cases hsome
    · rw [hopen, hf]
      exact ⟨rfl, rfl⟩
  · intro hnoexact hal
    have hf1 : (spec.steps.find? fun x => normText raw == normText x) = none := by
      apply List.find?_eq_none.mpr
      intro s hs
      simp only [beq_iff_eq]
      exact hnoexact s hs
    rcases hal with ⟨pr, hpr, a, ha, heq⟩
    have hsome : (spec.step_aliases.find? fun p =>
        p.2.any fun x => normalizeText raw == normalizeText x).isSome := by
      apply List.find?_isSome.mpr
      refine ⟨pr, hpr, ?_⟩
      apply List.any_eq_true.mpr
      exact ⟨a, ha, by simp [heq]⟩
    rcases hf2 : spec.step_aliases.find? fun p =>
        p.2.any fun x => normalizeText raw == normalizeText x with _ | p0
    · rw [hf2] at hsome; cases hsome
    · rw [hopen, hf1, hf2]
      exact ⟨rfl, rfl⟩
  · intro hfz
    rcases hf1 : spec.steps.find? fun x => normText raw == normText x with _ | s0
    case some =>
      rw [hopen, hf1] at hfz
      simp at hfz
    rcases hf2 : spec.step_aliases.find? fun p =>
        p.2.any fun x => normalizeText raw == normalizeText x with _ | p0
    case some =>
      rw [hopen, hf1, hf2] at hfz
      simp at hfz
    have hinv : FuzzyInv (normalizeText raw) spec.steps spec.step_aliases
        (fuzzyAliasPass (normalizeText raw)
          (fuzzyStepsPass (normalizeText raw) spec.steps) spec.step_aliases) := by
      apply fuzzyAliasPass_inv _ _ _ _ _ (fun pr hpr => hpr)
      apply fuzzyStepFun_foldl_inv _ _ _ _ _ (fun s hs => hs)
      refine ⟨?_, ?_⟩
      · intro sid v hv
        simp [alookup] at hv
      · intro sid hs
        simp at hs
    rcases hu : uniqueList (fuzzyAliasPass (normalizeText raw)
        (fuzzyStepsPass (normalizeText raw) spec.steps) spec.step_aliases).candidates
      with _ | ⟨sid, _ | ⟨b, u⟩⟩
    · rw [hopen, hf1, hf2, hu] at hfz
      simp [noMatchResult] at hfz
    · have hsidmem : sid ∈ (fuzzyAliasPass (normalizeText raw)
          (fuzzyStepsPass (normalizeText raw) spec.steps) spec.step_aliases).candidates := by
        have := (mem_uniqueList _ sid).mp (by rw [hu]; simp)
        exact this
      have hsome := hinv.2 sid hsidmem
      rcases hv : alookup (fuzzyAliasPass (normalizeText raw)
          (fuzzyStepsPass (normalizeText raw) spec.steps) spec.step_aliases).scores sid
        with _ | v
      · rw [hv] at hsome; cases hsome
      · rcases hinv.1 sid v hv with ⟨t, ht, hin, hval⟩
        refine ⟨sid, t, ?_, ht, hin, ?_⟩
        · rw [hopen, hf1, hf2, hu]
        · rw [hopen, hf1, hf2, hu]
          show max (1 / 100) (min 1 ((alookup _ sid).getD (1 / 2))) = _
          rw [hv]
          simp only [Option.getD_some]
          rw [hval]
    · rw [hopen, hf1, hf2, hu] at hfz
      simp [noMatchResult] at hfz
  · intro s1 s2 hne hc1 hc2 hnoexact hnoalias
    have hf1 : (spec.steps.find? fun x => normText raw == normText x) = none := by
      apply List.find?_eq_none.mpr
      intro s hs
      simp only [beq_iff_eq]
      exact hnoexact s hs
    have hf2 : (spec.step_aliases.find? fun p =>
        p.2.any fun x => normalizeText raw == normalizeText x) = none := by
      apply List.find?_eq_none.mpr
      intro pr hpr
      apply Bool.not_eq_true _ |>.mpr
      rw [List.any_eq_false]
      intro a ha
      simp only [beq_iff_eq]
      exact hnoalias pr hpr a ha
    have hm1 := hmemcand s1 hc1
    have hm2 := hmemcand s2 hc2
    rcases hu : uniqueList (fuzzyAliasPass (normalizeText raw)
        (fuzzyStepsPass (normalizeText raw) spec.steps) spec.step_aliases).candidates
      with _ | ⟨a, _ | ⟨b, u⟩⟩
    · rw [hopen, hf1, hf2, hu]
    · exfalso
      have h1 := uniqueList_singleton _ a hu s1 hm1
      have h2 := uniqueList_singleton _ a hu s2 hm2
      exact hne (h1.trans h2.symm)
    · rw [hopen, hf1, hf2, hu]

/-- Witness for C6: the fuzzy branch at the spec's concrete example
input over the repository's test catalog. -/
theorem match_step_priority_witness :
    ∃ sid t, (matchStepDetailed (some "completed role details yesterday")
        (some "recruiting") recruitingCatalog).step_id = some sid ∧
      ((t = sid ∧ sid ∈ recruitingSpec.steps) ∨
        ∃ pr ∈ recruitingSpec.step_aliases, pr.1 = sid ∧ t ∈ pr.2) ∧
      pyIn (normalizeText t) (normalizeText "completed role details yesterday") = true ∧
      (matchStepDetailed (some "completed role details yesterday")
          (some "recruiting") recruitingCatalog).score =
        max (1 / 100) (min 1 (((normalizeText t).data.length : ℚ) /
          (max (normalizeText "completed role details yesterday").data.length 1 : ℚ))) := by
  have h := (match_step_priority_and_fuzzy "completed role details yesterday" "recruiting"
    recruitingCatalog recruitingSpec (by decide) (by decide) rfl (by decide)).2.2.1
  exact h rfl

/-! ## Claim theorems -/

/-- C2: reconciling the same instance a second time against the store
state produced by the first reconciliation is idempotent at the merge
operations: re-merging the same incoming evidence ids into the already
merged list returns it unchanged (so the list gains no duplicates and
does not grow — it is duplicate-free and of equal length), and
re-choosing the latest timestamp with the same incoming value returns
the first choice unchanged (so `last_updated_at` never moves to an
earlier timestamp), for every parse function. -/
theorem evidence_and_timestamp_merge_idempotent
    (existing incoming : List String) (maxIds : Nat) (fromIso : String → Option ℚ)
    (tsExisting tsIncoming : Option String) :
    mergeEvidenceIds (mergeEvidenceIds existing incoming maxIds) incoming maxIds =
      mergeEvidenceIds existing incoming maxIds ∧
    (mergeEvidenceIds existing incoming maxIds).Nodup ∧
    (mergeEvidenceIds (mergeEvidenceIds existing incoming maxIds) incoming maxIds).length =
      (mergeEvidenceIds existing incoming maxIds).length ∧
    chooseLatestTs fromIso (chooseLatestTs fromIso tsExisting tsIncoming) tsIncoming =
      chooseLatestTs fromIso tsExisting tsIncoming :=
  ⟨mergeEvidenceIds_idem existing incoming maxIds,
    mergeEvidenceIds_nodup existing incoming maxIds,
    by rw [mergeEvidenceIds_idem existing incoming maxIds],
    chooseLatestTs_idem fromIso tsExisting tsIncoming⟩

/-- C7: positional inference labels every step before the (first
occurrence of the) current step with the configured inferred-complete
tag, gives the current step `blocked` when the (lowercased) status is
`blocked`, `completed` when it is `done` or `completed`, `in_progress`
otherwise, and labels every later step `not_started`. -/
theorem infer_steps_positional (defn : WorkflowDefinition) (pid cur : String)
    (status : Option String) (completedLabel : String) (steps : List String)
    (hpid : pid ≠ "") (hcur : cur ≠ "")
    (hsteps : alookup defn.process_steps_in_order pid = some steps)
    (hmem : cur ∈ steps) :
    ∃ out, inferStepsFromPosition (some pid) defn (some cur) status completedLabel =
        some out ∧
      out.map (·.id) = steps ∧
      (∀ i, i < steps.indexOf cur →
        (out.getD i ⟨"", none, ""⟩).status = completedLabel) ∧
      (out.getD (steps.indexOf cur) ⟨"", none, ""⟩).status =
        (if pyLower (status.getD "") = "blocked" then "blocked"
         else if pyLower (status.getD "") = "done" ∨ pyLower (status.getD "") = "completed"
           then "completed"
         else "in_progress") ∧
      (∀ i, steps.indexOf cur < i → i < steps.length →
        (out.getD i ⟨"", none, ""⟩).status = "not_started") := by
  have hne : steps ≠ [] := List.ne_nil_of_mem hmem
  have hidx : steps.indexOf cur < steps.length := List.indexOf_lt_length.mpr hmem
  have hres : inferStepsFromPosition (some pid) defn (some cur) status completedLabel =
      some (steps.enum.map fun p =>
        ⟨p.2, (alookup defn.step_info (pid, p.2)).bind (·.name),
          if p.1 < steps.indexOf cur then completedLabel
          else if p.1 = steps.indexOf cur then
            if pyLower (status.getD "") = "blocked" then "blocked"
            else if pyLower (status.getD "") = "done" ∨
                pyLower (status.getD "") = "completed" then "completed"
            else "in_progress"
          else "not_started"⟩) := by
    unfold inferStepsFromPosition
    rw [if_neg (by simp [optTruthy, hpid, hcur])]
    simp only [Option.getD_some, hsteps]
    rw [if_neg hne, if_neg (by simpa using hmem)]
  refine ⟨_, hres, ?_, ?_, ?_⟩
  · rw [List.map_map]
    exact List.enum_map_snd steps
  case refine_3 =>
    refine ⟨?_, ?_⟩
    · rw [List.getD_eq_getElem?_getD, List.getElem?_map, List.getElem?_enum,
        List.getElem?_eq_getElem hidx]
      simp
    · intro i hgt hlt
      rw [List.getD_eq_getElem?_getD, List.getElem?_map, List.getElem?_enum,
        List.getElem?_eq_getElem hlt]
      simp only [Option.map_some', Option.getD_some]
      rw [if_neg (by omega), if_neg (by omega)]
  · intro i hlt
    have hlen : i < steps.length := Nat.lt_trans hlt hidx
    rw [List.getD_eq_getElem?_getD, List.getElem?_map, List.getElem?_enum,
      List.getElem?_eq_getElem hlen]
    simp only [Option.map_some', Option.getD_some]
    rw [if_pos hlt]

/-- C3 (amended): the enricher nulls out `steps_total` / `steps_done` /
`steps_state` only when there is no canonical process (or no catalog,
or the process is missing from the catalog); when the process resolves
but `match_step` finds no step, `steps_state` instead maps every
catalog step to `unknown`, `steps_done` is `0` and `steps_total` is the
step count. -/
theorem compute_steps_null_or_unknown (inst : Instance) :
    computeSteps inst none = computeStepsNull inst ∧
    (∀ pc : ProcessCatalog, optTruthy inst.canonical_process = false →
      computeSteps inst (some pc) = computeStepsNull inst) ∧
    (∀ pc : ProcessCatalog, alookup pc.processes (inst.canonical_process.getD "") = none →
      computeSteps inst (some pc) = computeStepsNull inst) ∧
    ((computeStepsNull inst).steps_total = none ∧ (computeStepsNull inst).steps_done = none ∧
      (computeStepsNull inst).steps_state = none ∧
      (computeStepsNull inst).canonical_current_step_id = none) ∧
    (∀ (pc : ProcessCatalog) (spec : CatalogProcess),
      optTruthy inst.canonical_process = true →
      alookup pc.processes (inst.canonical_process.getD "") = some spec →
      (matchStepDetailed (stateD inst).step inst.canonical_process pc).step_id = none →
      (computeSteps inst (some pc)).steps_total = some spec.steps.length ∧
      (computeSteps inst (some pc)).steps_done = some 0 ∧
      ∃ ss, (computeSteps inst (some pc)).steps_state = some ss ∧
        ∀ s, alookup ss s = if s ∈ spec.steps then some "unknown" else none) := by
  refine ⟨rfl, ?_, ?_, ⟨rfl, rfl, rfl, rfl⟩, ?_⟩
  · intro pc h
    simp [computeSteps, h]
  · intro pc h
    by_cases ht : optTruthy inst.canonical_process
    · simp [computeSteps, ht, h]
    · simp [computeSteps, ht]
  · intro pc spec ht hspec hnomatch
    have hres : computeSteps inst (some pc) =
        { inst with
          canonical_current_step_id := none
          canonical_current_step_match_type :=
            some (matchStepDetailed (stateD inst).step inst.canonical_process pc).match_type
          canonical_current_step_match_score :=
            some (matchStepDetailed (stateD inst).step inst.canonical_process pc).score
          canonical_current_step_matched_alias :=
            (matchStepDetailed (stateD inst).step inst.canonical_process pc).matched_alias
          steps_total := some spec.steps.length
          steps_done := some 0
          steps_state :=
            some (spec.steps.foldl (fun ss s => aset ss s "unknown") []) } := by
      simp only [computeSteps, ht, not_true, if_neg, hspec, hnomatch]
      simp
    refine ⟨by rw [hres], by rw [hres], ?_⟩
    refine ⟨spec.steps.foldl (fun ss s => aset ss s "unknown") [], by rw [hres], ?_⟩
    intro s
    rw [alookup_foldl_unknown]
    by_cases hs : s ∈ spec.steps
    · simp [hs]
    · simp [hs, alookup_nil]

/-- Counterexample for C3 as stated: the process resolves to `"p"` and
the free-text step `"zzz"` matches no step, yet the enriched instance
has a non-null `steps_state` (every step mapped to `unknown`) and a
non-null `steps_total`. -/
theorem compute_steps_unknown_counterexample :
    (matchStepDetailed (some "zzz") (some "p") abCatalog).step_id = none ∧
    (computeSteps unmatchedStepInst (some abCatalog)).steps_state =
      some [("a", "unknown"), ("b", "unknown")] ∧
    (computeSteps unmatchedStepInst (some abCatalog)).steps_total = some 2 ∧
    ¬ ((computeSteps unmatchedStepInst (some abCatalog)).steps_state = none) := by
  have h2 : (computeSteps unmatchedStepInst (some abCatalog)).steps_state =
      some [("a", "unknown"), ("b", "unknown")] := rfl
  exact ⟨rfl, h2, rfl, fun h => by rw [h] at h2; cases h2⟩

/-- Witness for C3's theorem at a concrete instance and catalog. -/
theorem compute_steps_null_or_unknown_witness :
    (computeSteps unmatchedStepInst (some abCatalog)).steps_total = some ["a", "b"].length ∧
    (computeSteps unmatchedStepInst (some abCatalog)).steps_done = some 0 := by
  have h := (compute_steps_null_or_unknown unmatchedStepInst).2.2.2.2 abCatalog abProcess
    rfl rfl rfl
  exact ⟨h.1, h.2.1⟩

theorem fillSteps_pre (matched status : String) :
    ∀ (pre : List String) (d : Nat) (ss : List (String × String)), matched ∉ pre →
      ∃ ss2, pre.foldl (fillStepsFun matched status) (false, d, ss) =
          (false, d + pre.length, ss2) ∧
        ∀ x, alookup ss2 x = if x ∈ pre then some "completed" else alookup ss x := by
  intro pre
  induction pre with
  | nil =>
    intro d ss _
    exact ⟨ss, by simp, fun x => by simp⟩
  | cons p t ih =>
    intro d ss hmem
    have hp : p ≠ matched := by
      intro h; exact hmem (by simp [h])
    have hstep : fillStepsFun matched status (false, d, ss) p =
        (false, d + 1, aset ss p "completed") := by
      simp [fillStepsFun, hp]
    rcases ih (d + 1) (aset ss p "completed")
      (fun h => hmem (List.mem_cons_of_mem _ h)) with ⟨ss2, hfold, hlook⟩
    refine ⟨ss2, ?_, ?_⟩
    · simp only [List.foldl_cons, hstep, hfold, List.length_cons]
      congr 2
      omega
    · intro x
      rw [hlook x]
      by_cases hx : x ∈ t
      · simp [hx]
      · rw [if_neg hx, alookup_aset]
        by_cases hxp : x = p
        · simp [hxp]
        · simp [hxp, hx]

theorem fillSteps_post (matched status : String) :
    ∀ (post : List String) (d : Nat) (ss : List (String × String)), matched ∉ post →
      ∃ ss2, post.foldl (fillStepsFun matched status) (true, d, ss) = (true, d, ss2) ∧
        ∀ x, alookup ss2 x = if x ∈ post then some "not_started" else alookup ss x := by
  intro post
  induction post with
  | nil =>
    intro d ss _
    exact ⟨ss, by simp, fun x => by simp⟩
  | cons p t ih =>
    intro d ss hmem
    have hp : p ≠ matched := by
      intro h; exact hmem (by simp [h])
    have hstep : fillStepsFun matched status (true, d, ss) p =
        (true, d, aset ss p "not_started") := by
      simp [fillStepsFun, hp]
    rcases ih d (aset ss p "not_started")
      (fun h => hmem (List.mem_cons_of_mem _ h)) with ⟨ss2, hfold, hlook⟩
    refine ⟨ss2, ?_, ?_⟩
    · simp only [List.foldl_cons, hstep, hfold]
    · intro x
      rw [hlook x]
      by_cases hx : x ∈ t
      · simp [hx]
      · rw [if_neg hx, alookup_aset]
        by_cases hxp : x = p
        · simp [hxp]
        · simp [hxp, hx]

theorem fillStepsFun_matched (matched status : String) (d : Nat)
    (ss : List (String × String)) :
    fillStepsFun matched status (false, d, ss) matched =
      (true, (if status = "done" then d + 1 else d),
        aset ss matched
          (if status = "blocked" then "blocked"
           else if status = "done" then "completed" else "in_progress")) := by
  by_cases h1 : status = "blocked"
  · simp [fillStepsFun, h1]
  · by_cases h2 : status = "done"
    · simp [fillStepsFun, h1, h2]
    · simp [fillStepsFun, h1, h2]

/-- C5 (amended): when the instance's free-text step matches a catalog
step, every catalog step before the matched one is `completed` and
every one after it `not_started`; the matched step is `blocked` when
the status is exactly `blocked`, `completed` only when the status is
exactly `done`, and `in_progress` for every other status — including
the status string `completed`. -/
theorem compute_steps_positional (inst : Instance) (pc : ProcessCatalog)
    (spec : CatalogProcess) (matched : String) (pre post : List String)
    (htruthy : optTruthy inst.canonical_process = true)
    (hspec : alookup pc.processes (inst.canonical_process.getD "") = some spec)
    (hmatch : (matchStepDetailed (stateD inst).step inst.canonical_process pc).step_id =
      some matched)
    (hdecomp : spec.steps = pre ++ matched :: post)
    (hpre : matched ∉ pre) (hpost : matched ∉ post)
    (hdisj : ∀ x ∈ pre, x ∉ post) :
    ∃ ss, (computeSteps inst (some pc)).steps_state = some ss ∧
      (∀ x ∈ pre, alookup ss x = some "completed") ∧
      alookup ss matched = some
        (if pyOrD (stateD inst).status "unknown" = "blocked" then "blocked"
         else if pyOrD (stateD inst).status "unknown" = "done" then "completed"
         else "in_progress") ∧
      (∀ x ∈ post, alookup ss x = some "not_started") := by
  have hmem : matched ∈ spec.steps := by
    rw [hdecomp]; simp
  rcases fillSteps_pre matched (pyOrD (stateD inst).status "unknown") pre 0 [] hpre
    with ⟨ssA, hfoldA, hlookA⟩
  rcases fillSteps_post matched (pyOrD (stateD inst).status "unknown") post
    (if pyOrD (stateD inst).status "unknown" = "done" then 0 + pre.length + 1
     else 0 + pre.length)
    (aset ssA matched
      (if pyOrD (stateD inst).status "unknown" = "blocked" then "blocked"
       else if pyOrD (stateD inst).status "unknown" = "done" then "completed"
       else "in_progress")) hpost
    with ⟨ssB, hfoldB, hlookB⟩
  have hfill : (fillSteps spec.steps matched (pyOrD (stateD inst).status "unknown")).2.2 =
      ssB := by
    unfold fillSteps
    rw [hdecomp, List.foldl_append, hfoldA, List.foldl_cons, fillStepsFun_matched]
    by_cases hdone : pyOrD (stateD inst).status "unknown" = "done"
    · rw [if_pos hdone] at hfoldB ⊢
      rw [hfoldB]
    · rw [if_neg hdone] at hfoldB ⊢
      rw [hfoldB]
  have hres : (computeSteps inst (some pc)).steps_state =
      some (fillSteps spec.steps matched (pyOrD (stateD inst).status "unknown")).2.2 := by
    simp only [computeSteps, htruthy, hspec]
    rw [if_neg (by simp)]
    simp only [hmatch]
    have hsd : stateD { inst with
        canonical_current_step_id :=
          (matchStepDetailed (stateD inst).step inst.canonical_process pc).step_id
        canonical_current_step_match_type :=
          some (matchStepDetailed (stateD inst).step inst.canonical_process pc).match_type
        canonical_current_step_match_score :=
          some (matchStepDetailed (stateD inst).step inst.canonical_process pc).score
        canonical_current_step_matched_alias :=
          (matchStepDetailed (stateD inst).step inst.canonical_process pc).matched_alias } =
        stateD inst := rfl
    rw [if_pos hmem]
    rfl
  refine ⟨ssB, by rw [hres, hfill], ?_, ?_, ?_⟩
  · intro x hx
    rw [hlookB x, if_neg (hdisj x hx), alookup_aset,
      if_neg (by intro h; subst h; exact hpre hx), hlookA x, if_pos hx]
  · rw [hlookB matched, if_neg hpost, alookup_aset, if_pos rfl]
  · intro x hx
    rw [hlookB x, if_pos hx]

/-- Counterexample for C5 as stated: the step `"b"` matches exactly and
the instance status is the string `completed`, yet the matched step's
state is `in_progress`, not `completed`. -/
theorem compute_steps_completed_status_counterexample :
    (matchStepDetailed (some "b") (some "p") abcCatalog).step_id = some "b" ∧
    (stateD completedStatusInst).status = some "completed" ∧
    (computeSteps completedStatusInst (some abcCatalog)).steps_state =
      some [("a", "completed"), ("b", "in_progress"), ("c", "not_started")] ∧
    alookup [("a", "completed"), ("b", "in_progress"), ("c", "not_started")] "b" =
      some "in_progress" :=
  ⟨rfl, rfl, rfl, rfl⟩

/-- Witness for C5's theorem at a concrete instance and catalog. -/
theorem compute_steps_positional_witness :
    ∃ ss, (computeSteps completedStatusInst (some abcCatalog)).steps_state = some ss ∧
      (∀ x ∈ ["a"], alookup ss x = some "completed") ∧
      alookup ss "b" = some
        (if pyOrD (stateD completedStatusInst).status "unknown" = "blocked" then "blocked"
         else if pyOrD (stateD completedStatusInst).status "unknown" = "done" then "completed"
         else "in_progress") ∧
      (∀ x ∈ ["c"], alookup ss x = some "not_started") :=
  compute_steps_positional completedStatusInst abcCatalog abcProcess "b" ["a"] ["c"]
    rfl rfl rfl rfl (by decide) (by decide) (by decide)

theorem pyIn_nil (s : String) : pyIn "" s = true := by
  unfold pyIn
  show isInfixChars [] s.data = true
  cases s.data with
  | nil => rfl
  | cons c rest => simp [isInfixChars, isPrefixChars]

/-- C10 (amended): for a non-null input whose normalized forms are
empty (e.g. the empty or whitespace-only string), every client becomes
a substring candidate; when the distinct client names number exactly
one (in particular a single-client catalog) that name is returned, and
when there are two or more distinct names the empty string is returned
(not a title-cased form of the input). -/
theorem canonicalize_client_empty_norm (raw : String) (catalog : ClientsCatalog)
    (hraw : normText raw = "") (hrawTok : normTokenish raw = "")
    (hnames : ∀ c ∈ catalog.clients, normText c.name ≠ "")
    (haliases : ∀ c ∈ catalog.clients, ∀ a ∈ c.aliases, normText a ≠ "")
    (htok : ∀ c ∈ catalog.clients, normTokenish c.name ≠ "") :
    (∀ only, uniqueList (catalog.clients.map (·.name)) = [only] →
      canonicalizeClient (some raw) catalog = some only) ∧
    ((uniqueList (catalog.clients.map (·.name))).length ≠ 1 →
      canonicalizeClient (some raw) catalog = some "") := by
  have hfind1 : catalog.clients.find? (fun c => normText raw == normText c.name) = none := by
    apply List.find?_eq_none.mpr
    intro c hc
    rw [hraw]
    simp only [beq_iff_eq]
    intro h
    exact hnames c hc h.symm
  have hfind2 : catalog.clients.find?
      (fun c => c.aliases.any fun a => normText raw == normText a) = none := by
    apply List.find?_eq_none.mpr
    intro c hc
    rw [hraw]
    apply Bool.not_eq_true _ |>.mpr
    rw [List.any_eq_false]
    intro a ha
    simp only [beq_iff_eq]
    intro h
    exact haliases c hc a ha h.symm
  have hfilter1 : catalog.clients.filter (clientSubstrHit (normText raw)) =
      catalog.clients := by
    apply List.filter_eq_self.mpr
    intro c _
    unfold clientSubstrHit
    rw [hraw]
    apply List.any_eq_true.mpr
    refine ⟨c.name, List.mem_cons_self _ _, ?_⟩
    show (pyIn (normText c.name) "" || pyIn "" (normText c.name)) = true
    rw [pyIn_nil]
    simp
  have hfilter2 : catalog.clients.filter (clientTokHit (normTokenish raw)) =
      catalog.clients := by
    apply List.filter_eq_self.mpr
    intro c hc
    unfold clientTokHit
    rw [hrawTok]
    apply List.any_eq_true.mpr
    refine ⟨normTokenish c.name, ?_, ?_⟩
    · apply List.mem_filter.mpr
      exact ⟨List.mem_cons_self _ _, by simpa using htok c hc⟩
    · show (pyIn (normTokenish c.name) "" || pyIn "" (normTokenish c.name)) = true
      rw [pyIn_nil]
      simp
  have hopen : canonicalizeClient (some raw) catalog =
      match uniqueList (catalog.clients.map (·.name)) with
      | [only] => some only
      | _ =>
        match uniqueList (catalog.clients.map (·.name)) with
        | [only] => some only
        | _ => some (titleCaseNorm (normText raw)) := by
    simp only [canonicalizeClient]
    rw [hfind1, hfind2, hfilter1, hfilter2]
  constructor
  · intro only hsingleton
    rw [hopen, hsingleton]
  · intro hlen
    rcases h : uniqueList (catalog.clients.map (·.name)) with _ | ⟨a, _ | ⟨b, u⟩⟩
    · rw [hopen, h, hraw]
      rfl
    · rw [h] at hlen
      simp at hlen
    · rw [hopen, h, hraw]
      rfl

/-- Counterexample for C10 as stated: a catalog with two clients that
share the canonical name `Acme` — the function returns `Acme`, not the
empty string, for the empty input; with two distinct names it does
return the empty string. -/
theorem canonicalize_client_two_clients_counterexample :
    twoAcme.clients.length = 2 ∧
    canonicalizeClient (some "") twoAcme = some "Acme" ∧
    canonicalizeClient (some "") twoAcme ≠ some "" ∧
    canonicalizeClient (some "") acmeGlobex = some "" := by
  refine ⟨rfl, rfl, by decide, rfl⟩

/-- Witness for C10's theorem at the two-distinct-client catalog. -/
theorem canonicalize_client_empty_norm_witness :
    canonicalizeClient (some " ") acmeGlobex = some "" := by
  have h := (canonicalize_client_empty_norm " " acmeGlobex rfl rfl (by decide) (by decide)
    (by decide)).2
  exact h (by decide)

theorem loadUnifiedGo_lookup_stable :
    ∀ (processes : List (String × Option FlatSpec))
      (compiled result : List (String × CatalogProcess)),
      loadUnifiedGo compiled processes = .ok result →
      ∀ k, (k = "hiring" ∨ k = "recruiting" ∨ k ∉ processes.map Prod.fst) →
        alookup result k = alookup compiled k := by
  intro processes
  induction processes with
  | nil =>
    intro compiled result hok k _
    cases hok
    rfl
  | cons p rest ih =>
    intro compiled result hok k hk
    unfold loadUnifiedGo at hok
    split at hok
    · refine (ih compiled result hok k ?_).trans rfl
      rcases hk with h | h | h
      · exact Or.inl h
      · exact Or.inr (Or.inl h)
      · exact Or.inr (Or.inr fun hm => h (by simp [hm]))
    · rename_i hskip
      rcases hcomp : compileFromProcessCatalog p.1 (p.2.getD {}) with e | cp
      all_goals rw [hcomp] at hok
      · cases hok
      · have hne : p.1 ≠ k := by
          intro h
          subst h
          rcases hk with h | h | h
          · exact hskip (by simp [h])
          · exact hskip (by simp [h])
          · exact h (by simp)
        have h1 := ih (aset compiled p.1 cp) result hok k (by
          rcases hk with h | h | h
          · exact Or.inl h
          · exact Or.inr (Or.inl h)
          · exact Or.inr (Or.inr fun hm => h (by simp [hm])))
        rw [h1, alookup_aset, if_neg (fun h => hne h.symm)]

theorem loadUnifiedGo_compiles :
    ∀ (processes : List (String × Option FlatSpec))
      (compiled result : List (String × CatalogProcess)),
      loadUnifiedGo compiled processes = .ok result →
      (processes.map Prod.fst).Nodup →
      ∀ p ∈ processes, p.1 ≠ "hiring" → p.1 ≠ "recruiting" →
        ∃ cp, compileFromProcessCatalog p.1 (p.2.getD {}) = .ok cp ∧
          alookup result p.1 = some cp := by
  intro processes
  induction processes with
  | nil =>
    intro compiled result _ _ p hp
    exact absurd hp (List.not_mem_nil p)
  | cons q rest ih =>
    intro compiled result hok hnodup p hp hph hpr
    have hnodup2 : (rest.map Prod.fst).Nodup := by
      simpa using hnodup.of_cons
    unfold loadUnifiedGo at hok
    split at hok
    · rename_i hskip
      rcases List.mem_cons.mp hp with hq | hrest
      · exfalso
        subst hq
        rcases Bool.or_eq_true _ _ |>.mp hskip with h | h
        · exact hph (by simpa using h)
        · exact hpr (by simpa using h)
      · exact ih compiled result hok hnodup2 p hrest hph hpr
    · rename_i hskip
      rcases hcomp : compileFromProcessCatalog q.1 (q.2.getD {}) with e | cp
      all_goals rw [hcomp] at hok
      · cases hok
      · rcases List.mem_cons.mp hp with hq | hrest
        · subst hq
          refine ⟨cp, hcomp, ?_⟩
          have hnotin : p.1 ∉ rest.map Prod.fst := by
            have h0 : (p.1 :: rest.map Prod.fst).Nodup := by simpa using hnodup
            exact (List.nodup_cons.mp h0).1
          rw [loadUnifiedGo_lookup_stable rest (aset compiled p.1 cp) result hok p.1
            (Or.inr (Or.inr hnotin))]
          rw [alookup_aset, if_pos rfl]
        · exact ih (aset compiled q.1 cp) result hok hnodup2 p hrest hph hpr

/-- C9 (amended): the unified catalog always takes `recruiting` from
the specially-compiled path, and every flat-spec process id other than
the two reserved-for-skipping ids `hiring` and `recruiting` is compiled
from its flat spec; an id of `hiring` in the flat-spec source is
silently dropped (it gets no entry at all), not only `recruiting`. -/
theorem load_unified_catalog_merge (recruiting : CatalogProcess)
    (processes : List (String × Option FlatSpec)) (cat : ProcessCatalog)
    (hok : loadUnifiedCatalog recruiting processes = .ok cat) :
    alookup cat.processes "recruiting" = some recruiting ∧
    alookup cat.processes "hiring" = none ∧
    ((processes.map Prod.fst).Nodup →
      ∀ p ∈ processes, p.1 ≠ "hiring" → p.1 ≠ "recruiting" →
        ∃ cp, compileFromProcessCatalog p.1 (p.2.getD {}) = .ok cp ∧
          alookup cat.processes p.1 = some cp) := by
  unfold loadUnifiedCatalog at hok
  rcases hgo : loadUnifiedGo [("recruiting", recruiting)] processes with e | l
  all_goals rw [hgo] at hok
  · cases hok
  · have hcat : cat.processes = l := by
      cases hok
      rfl
    refine ⟨?_, ?_, ?_⟩
    · rw [hcat, loadUnifiedGo_lookup_stable processes _ l hgo "recruiting"
        (Or.inr (Or.inl rfl))]
      rfl
    · rw [hcat, loadUnifiedGo_lookup_stable processes _ l hgo "hiring" (Or.inl rfl)]
      rfl
    · intro hnodup p hp hph hpr
      rw [hcat]
      exact loadUnifiedGo_compiles processes _ l hgo hnodup p hp hph hpr

/-- Counterexample for C9 as stated: a valid flat spec under the id
`hiring` — compilable on its own — is silently skipped by the merge, so
an id other than the reserved `recruiting` is also ignored and gets no
catalog entry. -/
theorem load_unified_hiring_skipped_counterexample :
    compileFromProcessCatalog "hiring" okFlatSpec = .ok hiringCompiled ∧
    loadUnifiedCatalog abProcess [("hiring", some okFlatSpec)] =
      .ok ⟨[("recruiting", abProcess)]⟩ ∧
    alookup (⟨[("recruiting", abProcess)]⟩ : ProcessCatalog).processes "hiring" = none :=
  ⟨rfl, rfl, rfl⟩

/-- Witness for C9's theorem on a two-entry flat spec. -/
theorem load_unified_catalog_merge_witness :
    alookup (⟨[("recruiting", abProcess), ("other", otherCompiled)]⟩ :
      ProcessCatalog).processes "recruiting" = some abProcess ∧
    alookup (⟨[("recruiting", abProcess), ("other", otherCompiled)]⟩ :
      ProcessCatalog).processes "hiring" = none := by
  have h := load_unified_catalog_merge abProcess
    [("hiring", some okFlatSpec), ("other", some okFlatSpec)]
    ⟨[("recruiting", abProcess), ("other", otherCompiled)]⟩ rfl
  exact ⟨h.1, h.2.1⟩

/-- C4 (amended): health is `unknown` exactly when `last_updated_at`
is absent or unparsable; with a parsable timestamp and a matched
process, the process's thresholds drive
`overdue` / `at_risk` (blocked or stale) / `on_track`; with no matched
process no thresholds apply at all (there is no global default): the
instance is `at_risk` iff its status is `blocked`, else `on_track`. -/
theorem healthVerdict_some_eq (h : HealthSpec) (status : String) (delta : ℚ) :
    healthVerdict (some h) status delta =
      if (h.overdue_after_days : ℚ) ≤ delta then "overdue"
      else if status = "blocked" then "at_risk"
      else if (h.at_risk_after_days : ℚ) ≤ delta then "at_risk"
      else "on_track" := by
  unfold healthVerdict
  by_cases h1 : (h.overdue_after_days : ℚ) ≤ delta
  · simp [h1]
  · by_cases h2 : status = "blocked"
    · simp [h1, h2]
    · by_cases h3 : (h.at_risk_after_days : ℚ) ≤ delta
      · simp [h1, h2, h3]
      · simp [h1, h2, h3]

theorem healthVerdict_none_eq (status : String) (delta : ℚ) :
    healthVerdict none status delta =
      if status = "blocked" then "at_risk" else "on_track" := by
  unfold healthVerdict
  by_cases h2 : status = "blocked" <;> simp [h2]

theorem healthVerdict_ne_unknown (thresholds : Option HealthSpec) (status : String)
    (delta : ℚ) : healthVerdict thresholds status delta ≠ "unknown" := by
  rcases thresholds with _ | h
  · rw [healthVerdict_none_eq]
    split <;> decide
  · rw [healthVerdict_some_eq]
    split
    · decide
    · split
      · decide
      · split <;> decide

theorem compute_health_classification (inst : Instance) (pcOpt : Option ProcessCatalog)
    (now : ℚ) (fromIso : String → Option ℚ) :
    ((computeHealth inst pcOpt now fromIso).health = some "unknown" ↔
      safeParseIso fromIso (stateD inst).last_updated_at = none) ∧
    (∀ t, safeParseIso fromIso (stateD inst).last_updated_at = some t →
      ∀ pc spec, pcOpt = some pc → optTruthy inst.canonical_process = true →
        alookup pc.processes (inst.canonical_process.getD "") = some spec →
        (computeHealth inst pcOpt now fromIso).health = some
          (if (spec.health.overdue_after_days : ℚ) ≤ (now - t) / 86400 then "overdue"
           else if pyLower ((stateD inst).status.getD "") = "blocked" then "at_risk"
           else if (spec.health.at_risk_after_days : ℚ) ≤ (now - t) / 86400 then "at_risk"
           else "on_track")) ∧
    (∀ t, safeParseIso fromIso (stateD inst).last_updated_at = some t →
      (pcOpt = none ∨ optTruthy inst.canonical_process = false ∨
        (∃ pc, pcOpt = some pc ∧
          alookup pc.processes (inst.canonical_process.getD "") = none)) →
      (computeHealth inst pcOpt now fromIso).health = some
        (if pyLower ((stateD inst).status.getD "") = "blocked" then "at_risk"
         else "on_track")) := by
  refine ⟨?_, ?_, ?_⟩
  · rcases hparse : safeParseIso fromIso (stateD inst).last_updated_at with _ | t
    · simp [computeHealth, hparse]
    · simp only [computeHealth, hparse]
      constructor
      · intro h
        exfalso
        have h2 : healthVerdict (healthThresholds inst pcOpt)
            (pyLower ((stateD inst).status.getD "")) ((now - t) / 86400) = "unknown" := by
          simpa using h
        exact healthVerdict_ne_unknown _ _ _ h2
      · intro h; cases h
  · intro t hparse pc spec hpc htruthy hspec
    subst hpc
    have hth : healthThresholds inst (some pc) = some spec.health := by
      simp [healthThresholds, htruthy, hspec]
    simp only [computeHealth, hparse, hth, healthVerdict_some_eq]
  · intro t hparse hnone
    have hth : healthThresholds inst pcOpt = none := by
      rcases hnone with h | h | ⟨pc, hpc, hlook⟩
      · rw [h]; rfl
      · rcases pcOpt with _ | pc
        · rfl
        · simp [healthThresholds, h]
      · subst hpc
        by_cases ht2 : optTruthy inst.canonical_process
        · simp [healthThresholds, ht2, hlook]
        · simp [healthThresholds, ht2]
    simp only [computeHealth, hparse, hth, healthVerdict_none_eq]

/-- Counterexample for C4 as stated: an instance with no matched
process and a parsable timestamp 120 days old is classified `on_track`,
not `overdue`, because no default thresholds are applied. -/
theorem compute_health_no_default_counterexample :
    safeParseIso fromIsoModel (stateD staleNoProcessInst).last_updated_at =
      some staleEpoch ∧
    (staleNow - staleEpoch) / 86400 = 120 ∧
    (computeHealth staleNoProcessInst (some abCatalog) staleNow fromIsoModel).health =
      some "on_track" ∧
    (computeHealth staleNoProcessInst (some abCatalog) staleNow fromIsoModel).health ≠
      some "overdue" := by
  have hp : safeParseIso fromIsoModel (stateD staleNoProcessInst).last_updated_at =
      some staleEpoch := rfl
  have hh : (computeHealth staleNoProcessInst (some abCatalog) staleNow
      fromIsoModel).health = some "on_track" := by
    simp only [computeHealth, hp]
    have hth : healthThresholds staleNoProcessInst (some abCatalog) = none := rfl
    rw [hth, healthVerdict_none_eq]
    rfl
  refine ⟨hp, ?_, hh, by rw [hh]; decide⟩
  unfold staleNow
  ring_nf

/-- Witness for C4's theorem: the no-matched-process branch at the
concrete stale instance. -/
theorem compute_health_classification_witness :
    (computeHealth staleNoProcessInst (some abCatalog) staleNow fromIsoModel).health =
      some (if pyLower ((stateD staleNoProcessInst).status.getD "") = "blocked"
        then "at_risk" else "on_track") :=
  (compute_health_classification staleNoProcessInst (some abCatalog) staleNow
    fromIsoModel).2.2 staleEpoch rfl (Or.inr (Or.inl rfl))

/-- Witness for C7 at the spec's concrete example: process steps
`[s1, s2, s3]`, current step `s2`, status `blocked`. -/
theorem infer_steps_positional_witness :
    ∃ out, inferStepsFromPosition (some "recruiting") testDefn (some "s2")
        (some "blocked") "completed_inferred" = some out ∧
      out.map (·.id) = ["s1", "s2", "s3"] ∧
      (∀ i, i < ["s1", "s2", "s3"].indexOf "s2" →
        (out.getD i ⟨"", none, ""⟩).status = "completed_inferred") ∧
      (out.getD (["s1", "s2", "s3"].indexOf "s2") ⟨"", none, ""⟩).status =
        (if pyLower ((some "blocked").getD "") = "blocked" then "blocked"
         else if pyLower ((some "blocked").getD "") = "done" ∨
             pyLower ((some "blocked").getD "") = "completed" then "completed"
         else "in_progress") ∧
      (∀ i, ["s1", "s2", "s3"].indexOf "s2" < i → i < ["s1", "s2", "s3"].length →
        (out.getD i ⟨"", none, ""⟩).status = "not_started") :=
  infer_steps_positional testDefn "recruiting" "s2" (some "blocked") "completed_inferred"
    ["s1", "s2", "s3"] (by decide) (by decide) (by decide) (by decide)


/-! ## Loop-state preservation lemmas -/

/-- Writing back the element already stored at an index is the
identity on lists. -/
theorem list_set_self {α : Type} (l : List α) (i : Nat) (h : i < l.length) :
    l.set i (l.get ⟨i, h⟩) = l := by
  apply List.ext_getElem?
  intro n
  rcases eq_or_ne i n with rfl | hne
  · rw [List.getElem?_set_eq_of_lt _ h, List.getElem?_eq_getElem h]
    rfl
  · rw [List.getElem?_set_ne hne]

/-- `Array.setD` preserves the workflow-id column whenever the written
record keeps the workflow id found at the target index. -/
theorem setD_map_workflow_id (a : Array Workflow) (i : Nat) (w : Workflow)
    (h : w.workflow_id = (a.getD i {}).workflow_id) :
    (a.setD i w).toList.map (fun x => x.workflow_id) =
      a.toList.map fun x => x.workflow_id := by
  unfold Array.setD
  split
  case isTrue hi =>
    have hg : a.getD i ({} : Workflow) = a.toList.get ⟨i, hi⟩ := by
      unfold Array.getD
      rw [dif_pos hi]
      rfl
    rw [hg] at h
    have hset : (a.set ⟨i, hi⟩ w).toList = a.toList.set i w := rfl
    have hlen : i < (a.toList.map fun x => x.workflow_id).length := by
      rw [List.length_map]
      exact hi
    have hv : w.workflow_id = (a.toList.map fun x => x.workflow_id).get ⟨i, hlen⟩ := by
      rw [h]
      simp [List.getElem_map]
    rw [hset, List.map_set, hv, list_set_self]
  case isFalse => rfl

/-- The counter phase never touches the workflow list, the match
counters, the written total or the drift counters. -/
theorem updateCountersPhase_preserves (settings : Settings) (facts : InstFacts)
    (inst : Instance) (st : RState) :
    (updateCountersPhase settings facts inst st).workflows = st.workflows ∧
    (updateCountersPhase settings facts inst st).match_counts = st.match_counts ∧
    (updateCountersPhase settings facts inst st).hiring_written_total =
      st.hiring_written_total ∧
    (updateCountersPhase settings facts inst st).drift_client = st.drift_client ∧
    (updateCountersPhase settings facts inst st).drift_role = st.drift_role ∧
    (updateCountersPhase settings facts inst st).drift_process = st.drift_process ∧
    (updateCountersPhase settings facts inst st).drift_step = st.drift_step :=
  ⟨rfl, rfl, rfl, rfl, rfl, rfl, rfl⟩

/-- The drift phase never touches the workflow list, the match
counters or the written total. -/
theorem driftUpdatePhase_preserves (facts : InstFacts) (inst : Instance) (st : RState) :
    (driftUpdatePhase facts inst st).workflows = st.workflows ∧
    (driftUpdatePhase facts inst st).match_counts = st.match_counts ∧
    (driftUpdatePhase facts inst st).hiring_written_total = st.hiring_written_total :=
  ⟨rfl, rfl, rfl⟩


/-- `writeBack` preserves the workflow-id column of the loop state:
the written record keeps the workflow id found at the target index. -/
theorem writeBack_workflow_ids (ext : Foreign) (settings : Settings)
    (defn : WorkflowDefinition) (facts : InstFacts) (inst : Instance)
    (matchedIdx : Nat) (matchType : String) (matchScore : ℚ) (st : RState) :
    (writeBack ext settings defn facts inst matchedIdx matchType matchScore
        st).workflows.toList.map (fun x => x.workflow_id) =
      st.workflows.toList.map fun x => x.workflow_id := by
  unfold writeBack
  exact setD_map_workflow_id _ _ _ rfl

/-- Pushing onto a workflow array only extends its workflow-id
column. -/
theorem map_prefix_push (a : Array Workflow) (w : Workflow) :
    a.toList.map (fun x => x.workflow_id) <+:
      (a.push w).toList.map fun x => x.workflow_id := by
  have hp : (a.push w).toList = a.toList ++ [w] := Array.push_data _ _
  rw [hp, List.map_append]
  exact List.prefix_append _ _

/-- The write branch of the loop only extends the workflow-id column:
a matched workflow is rewritten in place keeping its id, a created one
is appended. -/
theorem writePhase_workflow_ids (ext : Foreign) (settings : Settings)
    (defn : WorkflowDefinition) (facts : InstFacts) (inst : Instance) (st : RState) :
    st.workflows.toList.map (fun x => x.workflow_id) <+:
      (writePhase ext settings defn facts inst st).workflows.toList.map
        fun x => x.workflow_id := by
  unfold writePhase matchOrCreate
  rcases h : matchAttemptOf ext settings facts inst st with ⟨_ | idx, mt, ms⟩ <;>
    simp only [writeBack_workflow_ids]
  · exact map_prefix_push _ _
  · exact List.prefix_refl _

/-- One loop iteration only extends the workflow-id column: the old
column is a prefix of the new one. -/
theorem processInstance_workflow_ids (ext : Foreign) (settings : Settings)
    (defn : WorkflowDefinition) (timeline : Option (List (String × List EvidenceRec)))
    (st : RState) (inst : Instance) :
    st.workflows.toList.map (fun x => x.workflow_id) <+:
      (processInstance ext settings defn timeline st inst).workflows.toList.map
        fun x => x.workflow_id := by
  simp only [processInstance]
  split
  · rw [(driftUpdatePhase_preserves _ _ _).1, (updateCountersPhase_preserves _ _ _ _).1]
  · have h := writePhase_workflow_ids ext settings defn
      (deriveInstanceFacts settings defn timeline inst) inst
      (updateCountersPhase settings (deriveInstanceFacts settings defn timeline inst) inst st)
    rw [(updateCountersPhase_preserves settings
      (deriveInstanceFacts settings defn timeline inst) inst st).1] at h
    exact h

/-- The whole reconciliation loop only extends the workflow-id
column. -/
theorem foldl_processInstance_workflow_ids (ext : Foreign) (settings : Settings)
    (defn : WorkflowDefinition) (timeline : Option (List (String × List EvidenceRec))) :
    ∀ (instances : List Instance) (st : RState),
      st.workflows.toList.map (fun x => x.workflow_id) <+:
        (instances.foldl (processInstance ext settings defn timeline)
            st).workflows.toList.map fun x => x.workflow_id := by
  intro instances
  induction instances with
  | nil => intro st; exact List.prefix_refl _
  | cons i rest ih =>
    intro st
    rw [List.foldl_cons]
    exact (processInstance_workflow_ids ext settings defn timeline st i).trans (ih _)

/-- C1 (corrected): the engine never deletes a workflow from its
working view, but under the default configuration (`hiring_only`
enabled) the working view is the store restricted to the configured
hiring process keys, and workflows filtered out of that view do not
appear in the returned list.  Precisely: the workflow-id column of the
restricted store view (the store itself when `hiring_only` is off) is
a prefix of the workflow-id column of the returned workflow list, for
every configuration, instance list, timeline and store. -/
theorem store_workflows_kept_never_deleted (ext : Foreign) (settings : Settings)
    (instances : List Instance) (timeline : Option (List (String × List EvidenceRec)))
    (storeWorkflows : List Workflow) (defn : WorkflowDefinition) :
    ((if settings.scope.hiring_only then
        storeWorkflows.filter fun wf =>
          optMemS wf.process_id settings.scope.hiring_process_keys
      else storeWorkflows).map fun wf => wf.workflow_id) <+:
      (reconcileInstances ext settings instances timeline storeWorkflows defn).workflows.map
        fun wf => wf.workflow_id := by
  have h := foldl_processInstance_workflow_ids ext settings defn timeline instances
    (initialRState settings storeWorkflows)
  have hinit : (initialRState settings storeWorkflows).workflows.toList =
      (if settings.scope.hiring_only then
        storeWorkflows.filter fun wf =>
          optMemS wf.process_id settings.scope.hiring_process_keys
      else storeWorkflows) := by
    simp only [initialRState]
  have hres : (reconcileInstances ext settings instances timeline storeWorkflows
      defn).workflows =
      (instances.foldl (processInstance ext settings defn timeline)
        (initialRState settings storeWorkflows)).workflows.toList := rfl
  rw [hres, hinit] at *
  exact h

/-- Counterexample for C1 as stated: under the default configuration a
stored workflow whose process is not a hiring process is present in
the input store but absent from the returned workflow list (the run
has no instances at all, so nothing else interferes). -/
theorem store_workflow_dropped_counterexample :
    deliveryWf ∈ [deliveryWf] ∧
    (reconcileInstances testForeign defaultSettings [] none [deliveryWf]
        testDefn).workflows = [] := by
  exact ⟨List.mem_singleton.mpr rfl, rfl⟩

/-- On an out-of-scope instance under `hiring_only`, the loop body
reduces to the counter updates followed by the drift updates. -/
theorem processInstance_out_of_scope (ext : Foreign) (settings : Settings)
    (defn : WorkflowDefinition) (timeline : Option (List (String × List EvidenceRec)))
    (st : RState) (inst : Instance)
    (h1 : settings.scope.hiring_only = true)
    (h2 : optMemS inst.canonical_process settings.scope.hiring_process_keys = false) :
    processInstance ext settings defn timeline st inst =
      driftUpdatePhase (deriveInstanceFacts settings defn timeline inst) inst
        (updateCountersPhase settings (deriveInstanceFacts settings defn timeline inst)
          inst st) := by
  have hcp : (deriveInstanceFacts settings defn timeline inst).canonProcess =
      inst.canonical_process := rfl
  simp only [processInstance]
  split
  · rfl
  · rename_i hcond
    refine absurd ⟨h1, ?_⟩ hcond
    intro hx
    rw [hcp, h2] at hx
    exact absurd hx (by decide)

/-- C8: an instance whose canonical process lies outside the
configured scope (with the scope restriction enabled) is counted in
the coverage report's `global.incoming_total` (which always equals the
number of incoming instances) and feeds the four drift counters under
the source's conditions, but its loop iteration leaves the workflow
list, the match counters and the written total untouched — no workflow
is created from it or updated by it. -/
theorem out_of_scope_counted_but_never_written (ext : Foreign) (settings : Settings)
    (defn : WorkflowDefinition) (timeline : Option (List (String × List EvidenceRec)))
    (st : RState) (inst : Instance) (instances : List Instance)
    (storeWorkflows : List Workflow)
    (h1 : settings.scope.hiring_only = true)
    (h2 : optMemS inst.canonical_process settings.scope.hiring_process_keys = false) :
    (reconcileInstances ext settings instances timeline storeWorkflows
        defn).coverage_report.globalBlock.incoming_total = instances.length ∧
    (processInstance ext settings defn timeline st inst).workflows = st.workflows ∧
    (processInstance ext settings defn timeline st inst).match_counts = st.match_counts ∧
    (processInstance ext settings defn timeline st inst).hiring_written_total =
      st.hiring_written_total ∧
    (processInstance ext settings defn timeline st inst).drift_client =
      (if ¬ optTruthy inst.canonical_client ∧ optTruthy inst.candidate_client_raw then
        aincr st.drift_client (inst.candidate_client_raw.getD "")
      else st.drift_client) ∧
    (processInstance ext settings defn timeline st inst).drift_role =
      (if ¬ isKnownRole inst.canonical_role ∧ optTruthy inst.candidate_role_raw then
        aincr st.drift_role (inst.candidate_role_raw.getD "")
      else st.drift_role) ∧
    (processInstance ext settings defn timeline st inst).drift_process =
      (if ¬ optTruthy inst.canonical_process ∧ optTruthy inst.candidate_process_raw then
        aincr st.drift_process (inst.candidate_process_raw.getD "")
      else st.drift_process) ∧
    (processInstance ext settings defn timeline st inst).drift_step =
      (match (stateD inst).step with
      | some rawStep =>
        if rawStep ≠ "" ∧ ¬ optTruthy (deriveCurrentStepId inst
            (resolveDefinitionProcessId inst.canonical_process defn
              settings.scope.hiring_process_keys) defn) then
          aincr st.drift_step rawStep
        else st.drift_step
      | none => st.drift_step) := by
  have hpi := processInstance_out_of_scope ext settings defn timeline st inst h1 h2
  refine ⟨rfl, ?_, ?_, ?_, ?_, ?_, ?_, ?_⟩ <;> rw [hpi] <;> rfl

/-- Witness for C8 at a concrete out-of-scope instance under the
default configuration. -/
theorem out_of_scope_counted_but_never_written_witness :
    (reconcileInstances testForeign defaultSettings [outOfScopeInst] none []
        testDefn).coverage_report.globalBlock.incoming_total = 1 ∧
    (processInstance testForeign defaultSettings testDefn none {} outOfScopeInst).workflows =
      ({} : RState).workflows ∧
    (processInstance testForeign defaultSettings testDefn none {}
        outOfScopeInst).drift_process =
      (if ¬ optTruthy outOfScopeInst.canonical_process ∧
          optTruthy outOfScopeInst.candidate_process_raw then
        aincr ({} : RState).drift_process (outOfScopeInst.candidate_process_raw.getD "")
      else ({} : RState).drift_process) := by
  have h := out_of_scope_counted_but_never_written testForeign defaultSettings testDefn
    none {} outOfScopeInst [outOfScopeInst] [] rfl (by decide)
  exact ⟨h.1, h.2.1, h.2.2.2.2.2.2.1⟩

end Demo
